import Mathlib

/-!
Verification development for the Google Maps business scraper.

JavaScript strings are modelled as lists of Unicode scalar values
(`List Char`); absent (`null`/`undefined`) or non-string values are the
`none` case of `Option`.  JavaScript numbers produced by `parseFloat` /
`parseInt` on digit strings are modelled as rationals / naturals.
Regular-expression replacement loops are modelled by fuel-indexed
structural recursion (the fuel is the input length, which is always
sufficient because every matcher consumes at least one character), so
that every definition is executable and kernel-reducible.
-/

/-- JavaScript string (sequence of Unicode scalar values). -/
abbrev Str := List Char

/-- Codepoint range test on a character. -/
def inRange (c : Char) (lo hi : Nat) : Bool := lo ≤ c.toNat && c.toNat ≤ hi

/-- Characters matched by the JavaScript regex class `\s` (also the set
removed by `String.prototype.trim`). -/
def isJsSpace (c : Char) : Bool :=
  c = ' ' || c = '\t' || c = '\n' || c.toNat = 0xB || c.toNat = 0xC || c = '\r' ||
  c.toNat = 0xA0 || c.toNat = 0x1680 || inRange c 0x2000 0x200A ||
  c.toNat = 0x2028 || c.toNat = 0x2029 || c.toNat = 0x202F || c.toNat = 0x205F ||
  c.toNat = 0x3000 || c.toNat = 0xFEFF

/-- JavaScript `text.trim()`. -/
def jsTrim (l : Str) : Str :=
  ((l.dropWhile isJsSpace).reverse.dropWhile isJsSpace).reverse

/-- ASCII lower-casing, used to model the `/i` regex flag (for non-`u`
regexes JavaScript canonicalisation only folds ASCII letters onto
ASCII). -/
def lowerAscii (c : Char) : Char :=
  if 'A' ≤ c ∧ c ≤ 'Z' then Char.ofNat (c.toNat + 32) else c

/-- Match a lower-case literal case-insensitively at the head of the
input, returning the rest of the input after the literal. -/
def matchLit : List Char → List Char → Option (List Char)
  | [], cs => some cs
  | _ :: _, [] => none
  | l :: ls, c :: cs => if lowerAscii c = l then matchLit ls cs else none

/-- Greedy optional single-character match (regex `x?`): consume the
head character when it satisfies `p`. -/
def matchOptChar (p : Char → Bool) (cs : List Char) : List Char :=
  match cs with
  | c :: r => if p c then r else c :: r
  | [] => []

/-- Global regex replacement (`String.prototype.replace` with a `/g`
regex): scan left to right; where the matcher succeeds, emit the
replacement and continue after the match, otherwise keep the character.
Structural on the fuel; a fuel of at least the input length is exact
because every matcher used below consumes at least one character. -/
def gsubF (m : List Char → Option (List Char)) (repl : List Char) :
    Nat → List Char → List Char
  | _, [] => []
  | 0, l => l
  | fuel + 1, c :: cs =>
    match m (c :: cs) with
    | some rest => repl ++ gsubF m repl fuel rest
    | none => c :: gsubF m repl fuel cs

/-- Whitespace-run collapsing (`.replace(/\s+/g, ' ')`), fuel-indexed. -/
def collapseWsF : Nat → List Char → List Char
  | _, [] => []
  | 0, l => l
  | fuel + 1, c :: cs =>
    if isJsSpace c then ' ' :: collapseWsF fuel (cs.dropWhile isJsSpace)
    else c :: collapseWsF fuel cs

/-- `.replace(/\s+/g, ' ')` on a whole string. -/
def collapseWs (l : Str) : Str := collapseWsF l.length l

/-- Characters removed by `cleanText`'s first regex,
`/[\u{1F000}-\u{1FFFF}]/gu`. -/
def bad1 (c : Char) : Bool := inRange c 0x1F000 0x1FFFF

/-- Characters removed by `cleanText`'s second regex,
`/[\u{2000}-\u{2FFF}]/gu`. -/
def bad2 (c : Char) : Bool := inRange c 0x2000 0x2FFF

/-- Characters removed by `cleanText`'s third regex (control characters
and exotic spaces). -/
def bad3 (c : Char) : Bool :=
  inRange c 0x0 0x1F || inRange c 0x7F 0xA0 || c.toNat = 0x1680 || c.toNat = 0x180E ||
  inRange c 0x2000 0x200F || inRange c 0x2028 0x202F || inRange c 0x205F 0x206F ||
  c.toNat = 0xFEFF

/-- Characters removed by `cleanText`'s fourth regex,
`/[︀-️]/g` (variation selectors). -/
def bad4 (c : Char) : Bool := inRange c 0xFE00 0xFE0F

/-- Characters kept by `cleanText`'s fifth regex,
`/[^\x20-\x7E\xA0-\xFFĀ-ſƀ-ɏ]/g` (scalar values
above `0xFFFF` are encoded as surrogate pairs in JavaScript; neither
surrogate is in the kept ranges, so at scalar-value level every
character above `0x24F` is removed). -/
def keep5 (c : Char) : Bool :=
  inRange c 0x20 0x7E || inRange c 0xA0 0xFF || inRange c 0x100 0x24F

/-- The five character-filter regexes of `cleanText` (src/main.js lines
7-11), in source order. -/
def filterStage (s : Str) : Str :=
  ((((s.filter (fun c => !bad1 c)).filter (fun c => !bad2 c)).filter
      (fun c => !bad3 c)).filter (fun c => !bad4 c)).filter keep5

/-- The literal `copy open hours` (lower-cased). -/
def litCopyOpenHours : List Char :=
  ['c', 'o', 'p', 'y', ' ', 'o', 'p', 'e', 'n', ' ', 'h', 'o', 'u', 'r', 's']

/-- Matcher for `/,?\s*Copy open hours/gi` (src/main.js line 12): an
optional comma, greedy whitespace, then the literal.  (Backtracking is
irrelevant: if the literal fails after the greedy prefix it also fails
for every shorter prefix, since neither a comma nor whitespace can begin
the literal.) -/
def mCopyText (cs : List Char) : Option (List Char) :=
  matchLit litCopyOpenHours ((matchOptChar (fun c => c = ',') cs).dropWhile isJsSpace)

/-- `.replace(/,?\s*Copy open hours/gi, '')`. -/
def removeCopy (l : Str) : Str := gsubF mCopyText [] l.length l

/-- Body of `cleanText` (src/main.js lines 4-15) on an actual string:
five character filters, boilerplate removal, whitespace collapsing,
trim. -/
def cleanTextStr (s : Str) : Str :=
  jsTrim (collapseWs (removeCopy (filterStage s)))

/-- `cleanText` (src/main.js lines 4-15).  `none` models `null`,
`undefined` and non-string arguments, all of which take the
`if (!text || typeof text !== 'string')` early return; the empty string
is falsy and takes the same early return. -/
def cleanText (t : Option Str) : Str :=
  match t with
  | none => []
  | some s => if s = [] then [] else cleanTextStr s

/-- Characters removed by the second filter of the fast variant's
`cleanText` (src/unnamed/part_001 line 11): `/[\u0000-\u001F\u007F- ]/g`. -/
def badB (c : Char) : Bool := inRange c 0x0 0x1F || inRange c 0x7F 0xA0

/-- Body of the fast variant's `cleanText` (src/unnamed/part_001 lines
7-14) on an actual string. -/
def cleanTextFastStr (s : Str) : Str :=
  jsTrim (collapseWs ((s.filter (fun c => !bad1 c)).filter (fun c => !badB c)))

/-- The fast variant's `cleanText` (src/unnamed/part_001 lines 7-14). -/
def cleanTextFast (t : Option Str) : Str :=
  match t with
  | none => []
  | some s => if s = [] then [] else cleanTextFastStr s

/-- Digit-string to natural number (semantics of `parseInt` on a
non-empty all-digit string, and of the integer part of `parseFloat`). -/
def digitsToNat (ds : List Char) : Nat :=
  ds.foldl (fun n c => 10 * n + (c.toNat - 48)) 0

/-- Value of a decimal literal with integer part `ip` and fractional
part `fp` (both digit strings, `fp` possibly empty):
`parseFloat(ip ++ "." ++ fp)` = `ip + fp / 10 ^ |fp|`, modelled exactly
in the rationals as the single fraction
`(ip * 10 ^ |fp| + fp) / 10 ^ |fp|`. -/
def decToRat (ip fp : List Char) : Rat :=
  mkRat (digitsToNat ip * 10 ^ fp.length + digitsToNat fp) (10 ^ fp.length)

/-- Remove the first occurrence of a character
(`text.replace('‎', '')` — a string pattern replaces only the
first occurrence). -/
def removeFirst (target : Char) : List Char → List Char
  | [] => []
  | c :: cs => if c = target then cs else c :: removeFirst target cs

/-- First match of `/(\d+[\.,]?\d*)/`: scan for the first digit, take
the maximal digit run, an optional `.` or `,` separator, then the
following (possibly empty) digit run; the value is `parseFloat` of the
match with `,` replaced by `.`. -/
def findRatingNum : List Char → Option Rat
  | [] => none
  | c :: rest =>
    if c.isDigit then
      some (match (c :: rest).dropWhile Char.isDigit with
        | '.' :: r2 => decToRat ((c :: rest).takeWhile Char.isDigit) (r2.takeWhile Char.isDigit)
        | ',' :: r2 => decToRat ((c :: rest).takeWhile Char.isDigit) (r2.takeWhile Char.isDigit)
        | _ => decToRat ((c :: rest).takeWhile Char.isDigit) [])
    else findRatingNum rest

/-- `parseRating` (src/main.js lines 31-39): strip the first U+200E,
match the first decimal number, reject values outside `[0, 5]`
(`value < 0 || value > 5` yields `null`, never a clamped value). -/
def parseRating (t : Option Str) : Option Rat :=
  match t with
  | none => none
  | some s =>
    if s = [] then none
    else
      match findRatingNum (removeFirst (Char.ofNat 0x200E) s) with
      | none => none
      | some v => if v < 0 ∨ 5 < v then none else some v

/-- The fast variant's `parseRating` (src/unnamed/part_001 lines 16-22):
same number match (no U+200E strip), keep the value only when
`value >= 0 && value <= 5`.  Truthy non-string arguments are coerced
with `String(text)`; the resulting string is covered by the `some`
case. -/
def parseRatingFast (t : Option Str) : Option Rat :=
  match t with
  | none => none
  | some s =>
    if s = [] then none
    else
      match findRatingNum s with
      | none => none
      | some v => if 0 ≤ v ∧ v ≤ 5 then some v else none

/-- Character class `[\d,\.\s]` of the first `parseReviewsCount`
regex. -/
def isRcClass (c : Char) : Bool := c.isDigit || c = ',' || c = '.' || isJsSpace c

/-- Group 1 of `/([\d,\.\s]+)\s*(reviews|review)?/i`: the maximal run of
class characters starting at the first class character (the optional
tail never constrains the greedy group).  The second, fallback regex
`/\(?([\d,]+)\)?/` can only match when this one does (its class is a
subset), so it never contributes. -/
def findRcRun : List Char → Option (List Char)
  | [] => none
  | c :: rest =>
    if isRcClass c then some ((c :: rest).takeWhile isRcClass) else findRcRun rest

/-- `parseReviewsCount` (src/main.js lines 41-47):
`parseInt(match[1].replace(/[^\d]/g, ''), 10)`; an all-non-digit match
gives `parseInt('')` = `NaN`, hence `null`. -/
def parseReviewsCount (t : Option Str) : Option Nat :=
  match t with
  | none => none
  | some s =>
    if s = [] then none
    else
      match findRcRun s with
      | none => none
      | some run =>
        if run.filter Char.isDigit = [] then none
        else some (digitsToNat (run.filter Char.isDigit))

/-- Parse `-?\d+\.\d+` at the head of the input (both digit runs
mandatory, greedy — the following context characters are never digits,
so greedy matching is exact); returns the value and the rest. -/
def parseSignedDec (cs : List Char) : Option (Rat × List Char) :=
  let neg : Bool := match cs with | '-' :: _ => true | _ => false
  let cs1 := match cs with | '-' :: r => r | _ => cs
  let ip := cs1.takeWhile Char.isDigit
  if ip = [] then none
  else
    match cs1.dropWhile Char.isDigit with
    | '.' :: cs3 =>
      let fp := cs3.takeWhile Char.isDigit
      if fp = [] then none
      else some ((if neg then -decToRat ip fp else decToRat ip fp), cs3.dropWhile Char.isDigit)
    | _ => none

/-- Tail of the `@lat,lon` pattern after the `@`. -/
def tryAtTail (cs : List Char) : Option (Rat × Rat) :=
  match parseSignedDec cs with
  | some (la, r1) =>
    (match r1 with
     | ',' :: r2 =>
       (match parseSignedDec r2 with
        | some (lo, _) => some (la, lo)
        | none => none)
     | _ => none)
  | none => none

/-- Leftmost match of `/@(-?\d+\.\d+),(-?\d+\.\d+)/`. -/
def findAtMatch : List Char → Option (Rat × Rat)
  | [] => none
  | '@' :: rest =>
    (match tryAtTail rest with
     | some p => some p
     | none => findAtMatch rest)
  | _ :: rest => findAtMatch rest

/-- Tail of the `!3d..!4d..` pattern after the `!`. -/
def tryBangTail (cs : List Char) : Option (Rat × Rat) :=
  match cs with
  | '3' :: 'd' :: r =>
    (match parseSignedDec r with
     | some (la, r1) =>
       (match r1 with
        | '!' :: '4' :: 'd' :: r2 =>
          (match parseSignedDec r2 with
           | some (lo, _) => some (la, lo)
           | none => none)
        | _ => none)
     | none => none)
  | _ => none

/-- Leftmost match of `/!3d(-?\d+\.\d+)!4d(-?\d+\.\d+)/`. -/
def findBangMatch : List Char → Option (Rat × Rat)
  | [] => none
  | '!' :: rest =>
    (match tryBangTail rest with
     | some p => some p
     | none => findBangMatch rest)
  | _ :: rest => findBangMatch rest

/-- The nullable coordinate pair returned by `parseCoordsFromUrl`. -/
structure Coords where
  latitude : Option Rat
  longitude : Option Rat
  deriving DecidableEq, Repr

/-- `parseCoordsFromUrl` (src/main.js lines 49-66): try the `@lat,lon`
pattern, then the `!3d..!4d..` pattern; each match fills both fields,
otherwise both are `null`. -/
def parseCoordsFromUrl (url : Option Str) : Coords :=
  match url with
  | none => ⟨none, none⟩
  | some s =>
    if s = [] then ⟨none, none⟩
    else
      match findAtMatch s with
      | some (la, lo) => ⟨some la, some lo⟩
      | none =>
        match findBangMatch s with
        | some (la, lo) => ⟨some la, some lo⟩
        | none => ⟨none, none⟩

/-- `canonicalizePlaceUrl` (src/main.js lines 68-71): `url.split('?')[0]`. -/
def canonicalizePlaceUrl (url : Str) : Str := url.takeWhile (fun c => c ≠ '?')

/-- The two middle-dot bullets `·` (U+00B7) and `•` (U+2022) used in the
`cleanHours` regexes. -/
def isDot (c : Char) : Bool := c.toNat = 0xB7 || c.toNat = 0x2022

/-- Word characters, regex `\w`. -/
def isWordChar (c : Char) : Bool :=
  ('a' ≤ c && c ≤ 'z') || ('A' ≤ c && c ≤ 'Z') || c.isDigit || c = '_'

/-- The literal `see more hour` (lower-cased; the final `s` of
`hours?` is optional). -/
def litSeeMoreHour : List Char :=
  ['s', 'e', 'e', ' ', 'm', 'o', 'r', 'e', ' ', 'h', 'o', 'u', 'r']

/-- The literal `copy open hour` (lower-cased; final `s` optional in
`cleanHours`). -/
def litCopyOpenHour : List Char :=
  ['c', 'o', 'p', 'y', ' ', 'o', 'p', 'e', 'n', ' ', 'h', 'o', 'u', 'r']

/-- The literal `closes soon` (lower-cased). -/
def litClosesSoon : List Char :=
  ['c', 'l', 'o', 's', 'e', 's', ' ', 's', 'o', 'o', 'n']

/-- The literal `opens ` (lower-cased, with trailing space). -/
def litOpensSp : List Char := ['o', 'p', 'e', 'n', 's', ' ']

/-- The literal `open` (lower-cased). -/
def litOpen : List Char := ['o', 'p', 'e', 'n']

/-- Greedy optional `s?` under `/i`. -/
def optS (cs : List Char) : List Char := matchOptChar (fun c => lowerAscii c = 's') cs

/-- Matcher for `/[·•]\s*See more hours?/gi` (src/main.js line 20). -/
def mSeeDot (cs : List Char) : Option (List Char) :=
  match cs with
  | c :: r =>
    if isDot c then (matchLit litSeeMoreHour (r.dropWhile isJsSpace)).map optS else none
  | [] => none

/-- Matcher for `/See more hours?[·•]?/gi` (src/main.js line 21). -/
def mSee (cs : List Char) : Option (List Char) :=
  (matchLit litSeeMoreHour cs).map (fun r => matchOptChar isDot (optS r))

/-- Matcher for `/[·•,]?\s*Copy open hours?/gi` (src/main.js line 22). -/
def mCopyDotH (cs : List Char) : Option (List Char) :=
  (matchLit litCopyOpenHour
    ((matchOptChar (fun c => isDot c || c = ',') cs).dropWhile isJsSpace)).map optS

/-- Matcher for `/Closes soon\s*[·•]\s*/gi` (src/main.js line 24). -/
def mCloses (cs : List Char) : Option (List Char) :=
  match matchLit litClosesSoon cs with
  | some r =>
    (match r.dropWhile isJsSpace with
     | d :: r2 => if isDot d then some (r2.dropWhile isJsSpace) else none
     | [] => none)
  | none => none

/-- Matcher for `/[·•]\s*Opens \d+[AP]M \w+/gi` (src/main.js line 25). -/
def mOpens (cs : List Char) : Option (List Char) :=
  match cs with
  | c :: r =>
    if isDot c then
      match matchLit litOpensSp (r.dropWhile isJsSpace) with
      | some r2 =>
        if r2.takeWhile Char.isDigit = [] then none
        else
          (match r2.dropWhile Char.isDigit with
           | a :: m :: sp :: r3 =>
             if (lowerAscii a = 'a' ∨ lowerAscii a = 'p') ∧ lowerAscii m = 'm' ∧ sp = ' ' then
               if r3.takeWhile isWordChar = [] then none
               else some (r3.dropWhile isWordChar)
             else none
           | _ => none)
      | none => none
    else none
  | [] => none

/-- Matcher for `/[·•]+/g` (src/main.js line 26): a maximal non-empty
bullet run. -/
def mDots (cs : List Char) : Option (List Char) :=
  match cs with
  | c :: r => if isDot c then some (r.dropWhile isDot) else none
  | [] => none

/-- `.replace(/^Open\s*[·•]\s*/i, '')` (src/main.js line 23): anchored
at the start, non-global, so a single prefix strip. -/
def stripOpenHead (cs : List Char) : List Char :=
  match matchLit litOpen cs with
  | some r1 =>
    (match r1.dropWhile isJsSpace with
     | d :: r2 => if isDot d then r2.dropWhile isJsSpace else cs
     | [] => cs)
  | none => cs

/-- The replacement text of src/main.js line 26 — the source file
contains the mojibake pair U+00C2 U+00B7 (`Â·`). -/
def replDotPair : List Char := [Char.ofNat 0xC2, Char.ofNat 0xB7]

/-- Body of `cleanHours` (src/main.js lines 17-29) on an actual string:
the seven replacement passes in source order, then whitespace
collapsing and trim. -/
def cleanHoursStr (s : Str) : Str :=
  let s1 := gsubF mSeeDot [] s.length s
  let s2 := gsubF mSee [] s1.length s1
  let s3 := gsubF mCopyDotH [] s2.length s2
  let s4 := stripOpenHead s3
  let s5 := gsubF mCloses [] s4.length s4
  let s6 := gsubF mOpens [] s5.length s5
  let s7 := gsubF mDots replDotPair s6.length s6
  jsTrim (collapseWs s7)

/-- `cleanHours` (src/main.js lines 17-29). -/
def cleanHours (t : Option Str) : Str :=
  match t with
  | none => []
  | some s => if s = [] then [] else cleanHoursStr s

/-- `pickText` (src/main.js lines 418-427): per selector, the element's
`textContent` (`none` = element missing or `textContent` empty-ish);
the first whose trimmed text is non-empty wins. -/
def pickText : List (Option Str) → Option Str
  | [] => none
  | none :: rest => pickText rest
  | some t :: rest => if jsTrim t = [] then pickText rest else some (jsTrim t)

/-- `pickAttr` (src/main.js lines 429-437): per selector, the attribute
value (`none` = element missing or attribute absent); the first truthy
(non-empty) value wins. -/
def pickAttr : List (Option Str) → Option Str
  | [] => none
  | none :: rest => pickAttr rest
  | some v :: rest => if v = [] then pickAttr rest else some v

/-- The object returned by the `page.evaluate` block of the DETAIL
handler (src/main.js lines 497-507): each field is the outcome of its
`pickText` / `pickAttr` strategy chain. -/
structure ExtractedRaw where
  name : Option Str
  category : Option Str
  ratingText : Option Str
  reviewsText : Option Str
  address : Option Str
  phone : Option Str
  website : Option Str
  hours : Option Str
  images : List Str
  deriving DecidableEq, Repr

/-- Per-request context of the DETAIL handler: the enqueued
`businessUrl`, the resolved `page.url()`, the originating query, the
fallback name sources (`page.title()` and the `og:title`/`title` meta
content, `none` when the probe fails or the element is missing), the
run's review/image flags, the review snippets scraped when the reviews
pane opens (`none` when the click or wait fails), and the
`new Date().toISOString()` timestamp. -/
structure PageCtx where
  businessUrl : Str
  pageUrl : Str
  query : Str
  pgTitle : Option Str
  metaContent : Option Str
  includeImages : Bool
  includeReviews : Bool
  reviewSnippets : Option (List Str)
  scrapedAt : Str
  deriving DecidableEq, Repr

/-- The dataset item pushed for a successful extraction
(src/main.js lines 518-530 and 567-569).  `Option` fields are the ones
the source sets to `undefined` when falsy. -/
structure BusinessRecord where
  name : Str
  category : Option Str
  address : Option Str
  phone : Option Str
  website : Option Str
  rating : Option Rat
  reviewsCount : Option Nat
  latitude : Option Rat
  longitude : Option Rat
  hours : Option Str
  images : Option (List Str)
  reviews : Option (List Str)
  url : Str
  searchQuery : Str
  scrapedAt : Str
  deriving DecidableEq, Repr

/-- `s || undefined` for a string-valued expression. -/
def optOfStr (s : Str) : Option Str := if s = [] then none else some s

/-- `cleanText(x) || undefined`. -/
def cleanedOpt (t : Option Str) : Option Str := optOfStr (cleanText t)

/-- Truthiness of a nullable number (`0` and `null`/`undefined` are
falsy). -/
def truthyNum (q : Option Rat) : Bool :=
  match q with
  | some v => v ≠ 0
  | none => false

/-- `x || undefined` on a nullable number: a zero value is dropped. -/
def numOrUndef (q : Option Rat) : Option Rat :=
  match q with
  | some v => if v = 0 then none else some v
  | none => none

/-- Coordinate resolution of the DETAIL handler (src/main.js lines
513-516): parse the enqueued URL; if either field is falsy
(`null` — or zero!) re-parse the live page URL. -/
def resolvedCoords (businessUrl pageUrl : Str) : Coords :=
  let c := parseCoordsFromUrl (some businessUrl)
  if truthyNum c.latitude && truthyNum c.longitude then c
  else parseCoordsFromUrl (some pageUrl)

/-- The meta-tag branch of the name fallback (src/main.js lines
538-542): runs only when the page title is absent or blank; a truthy
`content` is cleaned and assigned. -/
def metaName (ctx : PageCtx) : Option Str :=
  match ctx.metaContent with
  | some c => if c = [] then none else some (cleanTextStr c)
  | none => none

/-- The name fallback of the DETAIL handler (src/main.js lines 532-547),
entered when `businessData.name` is falsy: a truthy, non-blank
`page.title()` contributes `cleanText(title.split('-')[0])` (possibly
the empty string), otherwise the meta tag is probed. -/
def nameFallback (ctx : PageCtx) : Option Str :=
  match ctx.pgTitle with
  | some t =>
    if jsTrim t = [] then metaName ctx
    else some (cleanTextStr (t.takeWhile (fun c => c ≠ '-')))
  | none => metaName ctx

/-- The resolved `businessData.name` after the primary extraction and
the fallback chain (src/main.js lines 519 and 532-547): `none` when the
final value is `undefined`, `some n` when a string (possibly empty) was
assigned. -/
def nameResolved (e : ExtractedRaw) (ctx : PageCtx) : Option Str :=
  match cleanedOpt e.name with
  | some n => some n
  | none => nameFallback ctx

/-- The dataset item assembled for a request whose resolved name is
`nm` (src/main.js lines 518-530, 549-565 and 567-569). -/
def mkDetailRecord (e : ExtractedRaw) (ctx : PageCtx) (nm : Str) : BusinessRecord :=
  let reviewsCount := parseReviewsCount e.reviewsText
  let coords := resolvedCoords ctx.businessUrl ctx.pageUrl
  { name := nm
    category := cleanedOpt e.category
    address := cleanedOpt e.address
    phone := cleanedOpt e.phone
    website := match e.website with
      | some w => if w = [] then none else some w
      | none => none
    rating := parseRating e.ratingText
    reviewsCount := reviewsCount
    latitude := numOrUndef coords.latitude
    longitude := numOrUndef coords.longitude
    hours := optOfStr (cleanHours e.hours)
    images := if ctx.includeImages && !e.images.isEmpty then some e.images else none
    reviews :=
      if ctx.includeReviews && (match reviewsCount with
          | some n => decide (0 < n)
          | none => false) then
        match ctx.reviewSnippets with
        | some snips => some ((snips.map cleanTextStr).filter (fun r => r ≠ []))
        | none => none
      else none
    url := ctx.businessUrl
    searchQuery := ctx.query
    scrapedAt := ctx.scrapedAt }

/-- The DETAIL branch of `requestHandler` (src/main.js lines 510-576) as
a function from the extracted raw fields and the page context to the
dataset item it pushes; `none` means the no-name skip at lines 571-574
fired and nothing was pushed. -/
def detailHandler (e : ExtractedRaw) (ctx : PageCtx) : Option BusinessRecord :=
  match nameResolved e ctx with
  | none => none
  | some nm => if jsTrim nm = [] then none else some (mkDetailRecord e ctx nm)

/-- The failure record pushed by `failedRequestHandler`
(src/main.js lines 585-591). -/
structure FailureEntry where
  error : Bool
  url : Str
  query : Str
  errorMessage : Str
  timestamp : Str
  deriving DecidableEq, Repr

/-- Entries emitted to the dataset sink. -/
inductive SinkEntry where
  | success (r : BusinessRecord)
  | failure (f : FailureEntry)
  deriving DecidableEq, Repr

/-- The entries the DETAIL handler pushes for one terminal handling of a
request: one success record, or nothing when the no-name skip fires. -/
def detailSinkEntries (e : ExtractedRaw) (ctx : PageCtx) : List SinkEntry :=
  match detailHandler e ctx with
  | some r => [SinkEntry.success r]
  | none => []

/-- `array.join(', ')`. -/
def joinCommaSp : List Str → Str
  | [] => []
  | [m] => m
  | m :: ms => m ++ [',', ' '] ++ joinCommaSp ms

/-- The fallback reason text `'Request failed'`. -/
def defaultFailMsg : Str := [ 'R', 'e', 'q', 'u', 'e', 's', 't', ' ', 'f', 'a', 'i', 'l', 'e', 'd']

/-- `failedRequestHandler` (src/main.js lines 583-592): the dataset item
pushed when a request exhausts its retries.  `errorMessages` is `none`
when the request has no `errorMessages` array
(`request.errorMessages?.join(', ')` is `undefined`, falsy). -/
def failedRequestEntry (url query : Str) (errorMessages : Option (List Str)) (ts : Str) :
    FailureEntry :=
  let msg := match errorMessages with
    | some ms => joinCommaSp ms
    | none => []
  { error := true
    url := url
    query := query
    errorMessage := if msg = [] then defaultFailMsg else msg
    timestamp := ts }

/-- The per-query admission loop over discovered place links
(src/main.js lines 388-395): canonicalize, skip if already seen, else
record and admit, stopping once `maxResults` links are admitted for this
query.  Returns the admitted links and the updated seen set (the
`seenBusinessUrls` set is modelled as a list of canonical keys). -/
def admitLoop (links : List Str) (seen : List Str) (acc : List Str) (cap : Nat) :
    List Str × List Str :=
  match links with
  | [] => (acc, seen)
  | l :: ls =>
    if canonicalizePlaceUrl l ∈ seen then admitLoop ls seen acc cap
    else
      if cap ≤ (acc ++ [l]).length then (acc ++ [l], canonicalizePlaceUrl l :: seen)
      else admitLoop ls (canonicalizePlaceUrl l :: seen) (acc ++ [l]) cap

/-- One whole run: each query's SEARCH handler feeds its discovered
links through `admitLoop`, with `seenBusinessUrls` shared across
queries; the result is the concatenation of all admitted links. -/
def runAdmitAux : List (List Str) → List Str → List Str → Nat → List Str
  | [], _, admitted, _ => admitted
  | q :: qs, seen, admitted, cap =>
    runAdmitAux qs (admitLoop q seen [] cap).2 (admitted ++ (admitLoop q seen [] cap).1) cap

/-- All links admitted by the Deduplication Ledger over a run that
discovers `queries` (one link list per search query), with per-query cap
`cap` (`maxResults`). -/
def runAdmit (queries : List (List Str)) (cap : Nat) : List Str :=
  runAdmitAux queries [] [] cap

/-- The raw run input relevant to validation: `searchQueries` is `none`
when the supplied value is not an array, and `maxResults` is the
configured result limit. -/
structure RunInput where
  searchQueries : Option (List Str)
  maxResults : Int
  deriving DecidableEq, Repr

/-- The query filter `(q) => q && q.trim().length > 0` (src/main.js
line 140). -/
def isValidQuery (q : Str) : Bool := !q.isEmpty && !(jsTrim q).isEmpty

/-- Error message of the missing-queries check (src/main.js line 133). -/
def msgNeedQuery : Str :=
  ( "At least one search query is required. Example: \"restaurants in New York\"").toList

/-- Error message of the result-limit check (src/main.js line 137). -/
def msgMaxResults : Str := ( "maxResults must be between 1 and 500").toList

/-- Error message of the all-blank-queries check (src/main.js
line 142). -/
def msgAllEmpty : Str := ( "All search queries are empty. Provide valid search terms.").toList

/-- The input validation of src/main.js lines 132-143, run before the
crawler is constructed: a thrown error aborts the run before any
extraction starts.  The three checks run in source order. -/
def validateInput (inp : RunInput) : Except Str Unit :=
  match inp.searchQueries with
  | none => Except.error msgNeedQuery
  | some qs =>
    if qs.isEmpty then Except.error msgNeedQuery
    else if inp.maxResults < 1 || 500 < inp.maxResults then Except.error msgMaxResults
    else if (qs.filter isValidQuery).isEmpty then Except.error msgAllEmpty
    else Except.ok ()

/-- Error message of the fast variant's missing-queries check
(src/unnamed/part_001 line 151). -/
def msgNeedQueryFast : Str := ( "At least one search query is required").toList

/-- Error message of the fast variant's all-blank-queries check
(src/unnamed/part_001 line 156). -/
def msgAllEmptyFast : Str := ( "All search queries are empty").toList

/-- The fast variant's input validation (src/unnamed/part_001 lines
150-157): only the two query checks — there is no `maxResults` range
check in this variant. -/
def validateInputFast (inp : RunInput) : Except Str Unit :=
  match inp.searchQueries with
  | none => Except.error msgNeedQueryFast
  | some qs =>
    if qs.isEmpty then Except.error msgNeedQueryFast
    else if (qs.filter isValidQuery).isEmpty then Except.error msgAllEmptyFast
    else Except.ok ()

/-- The batch slicing of `processDetailsInParallel` (src/unnamed/
part_001 lines 119-133): `urls.slice(i, i + concurrency)` for
`i = 0, c, 2c, ...`; the promises of one batch run together and the next
batch starts only after `Promise.all` of the previous resolves.  Fuel-
indexed structural recursion (fuel = list length; with `concurrency = 0`
the JavaScript loop would not advance — every call site passes 10). -/
def batchesF : Nat → List Str → Nat → List (List Str)
  | _, [], _ => []
  | 0, _, _ => []
  | fuel + 1, u :: us, c => (u :: us).take c :: batchesF fuel ((u :: us).drop c) c

/-- The list of simultaneous HTTP-extraction waves of
`processDetailsInParallel`. -/
def batches (urls : List Str) (c : Nat) : List (List Str) := batchesF urls.length urls c

/-- Modelled from the spec: the request scheduling of crawlee's
`PlaywrightCrawler` under the `maxConcurrency` option (src/main.js line
165 configures it; the enforcing code lives in the crawlee library, not
in this repository).  Per the spec, "Maximum concurrent in-flight
extractions is an explicit configured ceiling; excess requests queue
rather than being dropped": a queued request may start only while fewer
than `N` requests are running, and a running request may finish. -/
structure SchedState where
  queued : List Nat
  running : List Nat
  finished : List Nat
  deriving DecidableEq, Repr

/-- Modelled from the spec: one scheduler transition — admit the next
queued request into a free slot, or retire a running request. -/
inductive SchedStep (N : Nat) : SchedState → SchedState → Prop
  | start (r : Nat) (rest running finished : List Nat) :
      running.length < N →
      SchedStep N ⟨r :: rest, running, finished⟩ ⟨rest, r :: running, finished⟩
  | finish (r : Nat) (queued run₁ run₂ finished : List Nat) :
      SchedStep N ⟨queued, run₁ ++ r :: run₂, finished⟩ ⟨queued, run₁ ++ run₂, r :: finished⟩

/-- Reflexive-transitive closure of scheduler transitions. -/
inductive SchedReach (N : Nat) : SchedState → SchedState → Prop
  | refl (s : SchedState) : SchedReach N s s
  | tail {s t u : SchedState} : SchedReach N s t → SchedStep N t u → SchedReach N s u

/-! Helper lemmas about the string pipeline. -/

theorem jsTrim_eq_rdrop (l : Str) :
    jsTrim l = List.rdropWhile isJsSpace (l.dropWhile isJsSpace) := rfl

theorem mem_jsTrim {l : Str} {c : Char} (h : c ∈ jsTrim l) : c ∈ l := by
  rw [jsTrim_eq_rdrop] at h
  exact (List.dropWhile_suffix isJsSpace).sublist.subset
    ((List.rdropWhile_prefix isJsSpace _).sublist.subset h)

theorem dropWhile_cons_head_false {α} {p : α → Bool} {x : α} {xs : List α}
    (h : List.dropWhile p (x :: xs) = x :: xs) : p x = false := by
  cases hpx : p x with
  | false => rfl
  | true =>
    exfalso
    rw [List.dropWhile_cons, if_pos hpx] at h
    have hle : (List.dropWhile p xs).length ≤ xs.length :=
      (List.dropWhile_suffix p).length_le
    rw [h] at hle
    simp at hle

theorem jsTrim_idem (l : Str) : jsTrim (jsTrim l) = jsTrim l := by
  rw [jsTrim_eq_rdrop, jsTrim_eq_rdrop]
  have hdw : List.dropWhile isJsSpace (List.dropWhile isJsSpace l) =
      List.dropWhile isJsSpace l := List.dropWhile_idempotent _ _
  have hfix : List.dropWhile isJsSpace
      (List.rdropWhile isJsSpace (l.dropWhile isJsSpace)) =
      List.rdropWhile isJsSpace (l.dropWhile isJsSpace) := by
    obtain ⟨t, ht⟩ := List.rdropWhile_prefix isJsSpace (l.dropWhile isJsSpace)
    cases hb : List.rdropWhile isJsSpace (l.dropWhile isJsSpace) with
    | nil => simp
    | cons x xs =>
      rw [hb, List.cons_append] at ht
      rw [← ht] at hdw
      have hx : isJsSpace x = false := dropWhile_cons_head_false hdw
      rw [List.dropWhile_cons, if_neg (by simp [hx])]
  rw [hfix, List.rdropWhile_idempotent]

theorem mem_matchOptChar {p : Char → Bool} {c : Char} {cs : List Char}
    (h : c ∈ matchOptChar p cs) : c ∈ cs := by
  unfold matchOptChar at h
  match cs with
  | [] => exact absurd h (List.not_mem_nil c)
  | d :: r =>
    by_cases hp : p d
    · simp only [hp, if_pos] at h
      exact List.mem_cons_of_mem d h
    · simpa only [hp, if_neg] using h

theorem matchLit_suffix :
    ∀ (lit cs r : List Char), matchLit lit cs = some r → r <:+ cs := by
  intro lit
  induction lit with
  | nil =>
    intro cs r h
    simp only [matchLit, Option.some.injEq] at h
    exact h ▸ List.suffix_refl cs
  | cons l ls ih =>
    intro cs r h
    match cs with
    | [] => exact absurd h (by simp [matchLit])
    | c :: cs' =>
      simp only [matchLit] at h
      by_cases hc : lowerAscii c = l
      · exact ((ih cs' r (by simpa [hc] using h)).trans (List.suffix_cons c cs'))
      · simp [hc] at h

theorem mem_mCopyText {cs r : List Char} (h : mCopyText cs = some r) :
    ∀ c ∈ r, c ∈ cs := by
  intro c hc
  have h1 := matchLit_suffix _ _ _ h
  have h2 : c ∈ (matchOptChar (fun c => c = ',') cs).dropWhile isJsSpace :=
    h1.sublist.subset hc
  exact mem_matchOptChar ((List.dropWhile_suffix isJsSpace).sublist.subset h2)

theorem mem_gsubF (m : List Char → Option (List Char)) (repl : List Char)
    (hm : ∀ cs r, m cs = some r → ∀ c ∈ r, c ∈ cs) :
    ∀ (fuel : Nat) (l : List Char) (c : Char), c ∈ gsubF m repl fuel l → c ∈ l ∨ c ∈ repl := by
  intro fuel
  induction fuel with
  | zero =>
    intro l c h
    match l with
    | [] => exact absurd h (List.not_mem_nil c)
    | x :: xs => exact Or.inl h
  | succ f ih =>
    intro l c h
    match l with
    | [] => exact absurd h (List.not_mem_nil c)
    | x :: xs =>
      simp only [gsubF] at h
      cases hmx : m (x :: xs) with
      | some rest =>
        rw [hmx] at h
        rcases List.mem_append.mp h with hrep | hrec
        · exact Or.inr hrep
        · rcases ih rest c hrec with hin | hrep
          · exact Or.inl (hm _ _ hmx c hin)
          · exact Or.inr hrep
      | none =>
        rw [hmx] at h
        rcases List.mem_cons.mp h with rfl | hrec
        · exact Or.inl (List.mem_cons_self c xs)
        · rcases ih xs c hrec with hin | hrep
          · exact Or.inl (List.mem_cons_of_mem x hin)
          · exact Or.inr hrep

theorem mem_collapseWsF :
    ∀ (fuel : Nat) (l : List Char) (c : Char), c ∈ collapseWsF fuel l → c ∈ l ∨ c = ' ' := by
  intro fuel
  induction fuel with
  | zero =>
    intro l c h
    match l with
    | [] => exact absurd h (List.not_mem_nil c)
    | x :: xs => exact Or.inl h
  | succ f ih =>
    intro l c h
    match l with
    | [] => exact absurd h (List.not_mem_nil c)
    | x :: xs =>
      simp only [collapseWsF] at h
      by_cases hx : isJsSpace x
      · rw [if_pos hx] at h
        rcases List.mem_cons.mp h with rfl | hrec
        · exact Or.inr rfl
        · rcases ih _ c hrec with hin | hsp
          · exact Or.inl (List.mem_cons_of_mem x
              ((List.dropWhile_suffix isJsSpace).sublist.subset hin))
          · exact Or.inr hsp
      · rw [if_neg hx] at h
        rcases List.mem_cons.mp h with rfl | hrec
        · exact Or.inl (List.mem_cons_self c xs)
        · rcases ih xs c hrec with hin | hsp
          · exact Or.inl (List.mem_cons_of_mem x hin)
          · exact Or.inr hsp

/-- Adjacent characters are never both whitespace. -/
def wsR (a b : Char) : Prop := ¬(isJsSpace a = true ∧ isJsSpace b = true)

/-- A string in the image of whitespace collapsing: every whitespace
character is a plain space and no two adjacent characters are both
whitespace. -/
def collapsedP (l : Str) : Prop :=
  (∀ c ∈ l, isJsSpace c = true → c = ' ') ∧ l.Chain' wsR

theorem dropWhile_head_not {α} {p : α → Bool} :
    ∀ {l : List α} {d : α} {rest : List α}, List.dropWhile p l = d :: rest → p d = false := by
  intro l
  induction l with
  | nil => intro d rest h; simp [List.dropWhile] at h
  | cons x xs ih =>
    intro d rest h
    rw [List.dropWhile_cons] at h
    by_cases hx : p x
    · rw [if_pos hx] at h
      exact ih h
    · rw [if_neg hx] at h
      cases h
      cases hpx : p x with
      | false => rfl
      | true => exact absurd hpx hx

theorem collapsedP_collapseWsF :
    ∀ (fuel : Nat) (l : Str), l.length ≤ fuel → collapsedP (collapseWsF fuel l) := by
  intro fuel
  induction fuel with
  | zero =>
    intro l hl
    have : l = [] := List.length_eq_zero.mp (Nat.le_zero.mp hl)
    subst this
    exact ⟨fun c hc _ => absurd hc (List.not_mem_nil c), List.chain'_nil⟩
  | succ f ih =>
    intro l hl
    match l with
    | [] => exact ⟨fun c hc _ => absurd hc (List.not_mem_nil c), List.chain'_nil⟩
    | x :: xs =>
      simp only [collapseWsF]
      by_cases hx : isJsSpace x
      · rw [if_pos hx]
        have hlen : (xs.dropWhile isJsSpace).length ≤ f := by
          have h1 : (xs.dropWhile isJsSpace).length ≤ xs.length :=
            (List.dropWhile_suffix isJsSpace).length_le
          have h2 : xs.length ≤ f := by simpa using hl
          omega
        obtain ⟨ihall, ihch⟩ := ih (xs.dropWhile isJsSpace) hlen
        refine ⟨?_, ?_⟩
        · intro c hc hcs
          rcases List.mem_cons.mp hc with rfl | hc'
          · rfl
          · exact ihall c hc' hcs
        · rw [List.chain'_cons']
          refine ⟨?_, ihch⟩
          intro h hh
          cases hcw : collapseWsF f (xs.dropWhile isJsSpace) with
          | nil => rw [hcw] at hh; simp at hh
          | cons d rest =>
            rw [hcw] at hh
            simp only [List.head?_cons, Option.mem_def, Option.some.injEq] at hh
            subst hh
            -- the head of the collapsed tail is the head of a dropWhile
            -- result, hence not whitespace
            cases hdw : xs.dropWhile isJsSpace with
            | nil => rw [hdw] at hcw; simp [collapseWsF] at hcw
            | cons d0 rest0 =>
              have hd0 : isJsSpace d0 = false := dropWhile_head_not hdw
              rw [hdw] at hcw
              have hf1 : 1 ≤ f := by
                rw [hdw] at hlen; simp at hlen; omega
              match f, hf1 with
              | f' + 1, _ =>
                simp only [collapseWsF] at hcw
                rw [if_neg (by simp [hd0])] at hcw
                have hd0d : d0 = d := (List.cons.injEq _ _ _ _ ▸ hcw).1
                intro hcon
                rw [← hd0d, hd0] at hcon
                exact absurd hcon.2 (by simp)
      · rw [if_neg hx]
        have h2 : xs.length ≤ f := by simpa using hl
        obtain ⟨ihall, ihch⟩ := ih xs h2
        refine ⟨?_, ?_⟩
        · intro c hc hcs
          rcases List.mem_cons.mp hc with rfl | hc'
          · exact absurd hcs hx
          · exact ihall c hc' hcs
        · rw [List.chain'_cons']
          refine ⟨?_, ihch⟩
          intro h _ hcon
          exact absurd hcon.1 hx

theorem collapseWsF_of_collapsedP :
    ∀ (fuel : Nat) (l : Str), l.length ≤ fuel → collapsedP l → collapseWsF fuel l = l := by
  intro fuel
  induction fuel with
  | zero =>
    intro l hl _
    have : l = [] := List.length_eq_zero.mp (Nat.le_zero.mp hl)
    subst this; rfl
  | succ f ih =>
    intro l hl hp
    match l with
    | [] => rfl
    | x :: xs =>
      obtain ⟨hall, hch⟩ := hp
      have h2 : xs.length ≤ f := by simpa using hl
      have htl : collapsedP xs :=
        ⟨fun c hc => hall c (List.mem_cons_of_mem x hc), hch.tail⟩
      simp only [collapseWsF]
      by_cases hx : isJsSpace x
      · rw [if_pos hx]
        have hxsp : x = ' ' := hall x (List.mem_cons_self x xs) hx
        have hdrop : xs.dropWhile isJsSpace = xs := by
          cases xs with
          | nil => rfl
          | cons d rest =>
            have hrel := (List.chain'_cons'.mp hch).1 d (by simp)
            have hd : isJsSpace d = false := by
              cases hdd : isJsSpace d with
              | false => rfl
              | true => exact absurd ⟨hx, hdd⟩ hrel
            rw [List.dropWhile_cons, if_neg (by simp [hd])]
        rw [hdrop, ih xs h2 htl, hxsp]
      · rw [if_neg hx, ih xs h2 htl]

theorem collapsedP_sub {l₁ l : Str} (h : collapsedP l) (hinf : l₁ <:+: l) :
    collapsedP l₁ :=
  ⟨fun c hc => h.1 c (hinf.sublist.subset hc), List.Chain'.infix h.2 hinf⟩

theorem jsTrim_sub (l : Str) : jsTrim l <:+: l := by
  rw [jsTrim_eq_rdrop]
  exact ((List.rdropWhile_prefix isJsSpace _).isInfix).trans
    (List.dropWhile_suffix isJsSpace).isInfix

theorem collapsedP_collapseWs (l : Str) : collapsedP (collapseWs l) :=
  collapsedP_collapseWsF l.length l le_rfl

theorem collapseWs_of_collapsedP {l : Str} (h : collapsedP l) : collapseWs l = l :=
  collapseWsF_of_collapsedP l.length l le_rfl h

theorem collapseWs_jsTrim_collapseWs (l : Str) :
    collapseWs (jsTrim (collapseWs l)) = jsTrim (collapseWs l) :=
  collapseWs_of_collapsedP (collapsedP_sub (collapsedP_collapseWs l) (jsTrim_sub _))

/-- A character that survives all five filters of `cleanTextStr`. -/
def passClean (c : Char) : Bool :=
  !bad1 c && !bad2 c && !bad3 c && !bad4 c && keep5 c

theorem mem_filterStage {s : Str} {c : Char} (h : c ∈ filterStage s) :
    passClean c = true := by
  unfold filterStage at h
  have h5 := List.mem_filter.mp h
  have h4 := List.mem_filter.mp h5.1
  have h3 := List.mem_filter.mp h4.1
  have h2 := List.mem_filter.mp h3.1
  have h1 := List.mem_filter.mp h2.1
  simp only [passClean, Bool.and_eq_true]
  exact ⟨⟨⟨⟨h1.2, h2.2⟩, h3.2⟩, h4.2⟩, h5.2⟩

theorem mem_filterStage_orig {s : Str} {c : Char} (h : c ∈ filterStage s) : c ∈ s := by
  unfold filterStage at h
  exact (List.mem_filter.mp ((List.mem_filter.mp ((List.mem_filter.mp
    ((List.mem_filter.mp ((List.mem_filter.mp h).1)).1)).1)).1)).1

theorem filterStage_of_passes {l : Str} (h : ∀ c ∈ l, passClean c = true) :
    filterStage l = l := by
  have hb : ∀ c ∈ l, (!bad1 c) = true ∧ (!bad2 c) = true ∧ (!bad3 c) = true ∧
      (!bad4 c) = true ∧ keep5 c = true := by
    intro c hcm
    have hp := h c hcm
    simp only [passClean, Bool.and_eq_true] at hp
    exact ⟨hp.1.1.1.1, hp.1.1.1.2, hp.1.1.2, hp.1.2, hp.2⟩
  unfold filterStage
  rw [List.filter_eq_self.mpr (fun c hc => (hb c hc).1)]
  rw [List.filter_eq_self.mpr (fun c hc => (hb c hc).2.1)]
  rw [List.filter_eq_self.mpr (fun c hc => (hb c hc).2.2.1)]
  rw [List.filter_eq_self.mpr (fun c hc => (hb c hc).2.2.2.1)]
  rw [List.filter_eq_self.mpr (fun c hc => (hb c hc).2.2.2.2)]

theorem passClean_space : passClean ' ' = true := by decide

/-- Every character of a `cleanTextStr` output survives all five
filters. -/
theorem mem_cleanTextStr_passes {s : Str} {c : Char} (h : c ∈ cleanTextStr s) :
    passClean c = true := by
  unfold cleanTextStr at h
  have h1 := mem_jsTrim h
  rcases mem_collapseWsF _ _ _ h1 with h2 | rfl
  · rcases mem_gsubF mCopyText [] (fun cs r hm => mem_mCopyText hm) _ _ _ h2 with h3 | h3
    · exact mem_filterStage h3
    · exact absurd h3 (List.not_mem_nil c)
  · exact passClean_space

theorem cleanTextStr_eq_of_fix {y : Str} (hfil : filterStage y = y)
    (hcopy : removeCopy y = y) (hcoll : collapseWs y = y) (htrim : jsTrim y = y) :
    cleanTextStr y = y := by
  unfold cleanTextStr
  rw [hfil, hcopy, hcoll, htrim]

/-- The main-variant normalizer is idempotent on every input whose
cleaned form the boilerplate pass leaves unchanged. -/
theorem cleanTextStr_idem_of_removeCopy {x : Str}
    (h : removeCopy (cleanTextStr x) = cleanTextStr x) :
    cleanTextStr (cleanTextStr x) = cleanTextStr x := by
  apply cleanTextStr_eq_of_fix
  · exact filterStage_of_passes (fun c hc => mem_cleanTextStr_passes hc)
  · exact h
  · show collapseWs (jsTrim (collapseWs (removeCopy (filterStage x)))) = _
    exact collapseWs_jsTrim_collapseWs _
  · exact jsTrim_idem _

theorem mem_cleanTextFastStr_passes {s : Str} {c : Char} (h : c ∈ cleanTextFastStr s) :
    ((!bad1 c) && (!badB c)) = true := by
  unfold cleanTextFastStr at h
  rcases mem_collapseWsF _ _ _ (mem_jsTrim h) with h2 | rfl
  · have hB := List.mem_filter.mp h2
    have h1 := List.mem_filter.mp hB.1
    simp only [Bool.and_eq_true]
    exact ⟨h1.2, hB.2⟩
  · decide

theorem cleanTextFastStr_idem (s : Str) :
    cleanTextFastStr (cleanTextFastStr s) = cleanTextFastStr s := by
  have hf1 : (cleanTextFastStr s).filter (fun c => !bad1 c) = cleanTextFastStr s :=
    List.filter_eq_self.mpr (fun c hc => by
      have hp := mem_cleanTextFastStr_passes hc
      simp only [Bool.and_eq_true] at hp
      exact hp.1)
  have hf2 : (cleanTextFastStr s).filter (fun c => !badB c) = cleanTextFastStr s :=
    List.filter_eq_self.mpr (fun c hc => by
      have hp := mem_cleanTextFastStr_passes hc
      simp only [Bool.and_eq_true] at hp
      exact hp.2)
  have hfix : ((cleanTextFastStr s).filter (fun c => !bad1 c)).filter (fun c => !badB c) =
      cleanTextFastStr s := by rw [hf1, hf2]
  have hcoll : collapseWs (cleanTextFastStr s) = cleanTextFastStr s := by
    show collapseWs (jsTrim (collapseWs _)) = _
    exact collapseWs_jsTrim_collapseWs _
  have htrim : jsTrim (cleanTextFastStr s) = cleanTextFastStr s := by
    show jsTrim (jsTrim _) = _
    exact jsTrim_idem _
  show jsTrim (collapseWs (((cleanTextFastStr s).filter (fun c => !bad1 c)).filter
    (fun c => !badB c))) = cleanTextFastStr s
  rw [hfix, hcoll, htrim] 

theorem optOfStr_some {s c : Str} (h : optOfStr s = some c) : c = s ∧ s ≠ [] := by
  unfold optOfStr at h
  by_cases hs : s = []
  · rw [if_pos hs] at h; exact absurd h (by simp)
  · rw [if_neg hs] at h
    exact ⟨(Option.some.injEq _ _ ▸ h).symm, hs⟩

theorem cleanedOpt_some {t : Option Str} {c : Str} (h : cleanedOpt t = some c) :
    ∃ s, c = cleanTextStr s := by
  match t with
  | none => exact absurd h (by simp [cleanedOpt, cleanText, optOfStr])
  | some s =>
    by_cases hs : s = []
    · subst hs
      exact absurd h (by simp [cleanedOpt, cleanText, optOfStr])
    · have h' : optOfStr (cleanTextStr s) = some c := by
        simpa [cleanedOpt, cleanText, hs] using h
      exact ⟨s, (optOfStr_some h').1⟩

theorem detailHandler_some_iff {e : ExtractedRaw} {ctx : PageCtx} {r : BusinessRecord} :
    detailHandler e ctx = some r ↔
    ∃ nm, nameResolved e ctx = some nm ∧ jsTrim nm ≠ [] ∧ r = mkDetailRecord e ctx nm := by
  unfold detailHandler
  cases hn : nameResolved e ctx with
  | none => simp
  | some nm =>
    by_cases ht : jsTrim nm = []
    · simp [ht]
    · simp only [ht, if_neg, ite_false]
      constructor
      · intro h
        exact ⟨nm, rfl, ht, ((Option.some.injEq _ _).mp h).symm⟩
      · rintro ⟨nm', hnm', _, rarr⟩
        have : nm' = nm := ((Option.some.injEq _ _).mp hnm').symm
        subst this
        rw [rarr]

theorem keep5_le {c : Char} (h : keep5 c = true) : c.toNat ≤ 0x24F := by
  unfold keep5 inRange at h
  simp only [Bool.or_eq_true, Bool.and_eq_true, decide_eq_true_eq] at h
  omega

theorem mem_cleanTextStr_le {s : Str} {c : Char} (h : c ∈ cleanTextStr s) :
    c.toNat ≤ 0x24F := by
  have hp := mem_cleanTextStr_passes h
  simp only [passClean, Bool.and_eq_true] at hp
  exact keep5_le hp.2

theorem cleanTextStr_of_high {s : Str} (h : ∀ c ∈ s, 0x250 ≤ c.toNat) :
    cleanTextStr s = [] := by
  have hfs : filterStage s = [] := by
    unfold filterStage
    apply List.filter_eq_nil_iff.mpr
    intro c hc
    have hcs : c ∈ s :=
      (List.filter_sublist _).subset ((List.filter_sublist _).subset
        ((List.filter_sublist _).subset ((List.filter_sublist _).subset hc)))
    intro hk
    have := keep5_le hk
    have := h c hcs
    omega
  unfold cleanTextStr
  rw [hfs]
  rfl

theorem cleanText_of_high {s : Str} (h : ∀ c ∈ s, 0x250 ≤ c.toNat) :
    cleanText (some s) = [] := by
  by_cases hs : s = []
  · simp [cleanText, hs]
  · simp [cleanText, hs, cleanTextStr_of_high h]

/-- All characters of a possibly-absent string lie outside the Latin
blocks kept by the normalizer (scalar value at least `0x250`). -/
def optAllHigh (o : Option Str) : Prop :=
  ∀ s, o = some s → ∀ c ∈ s, 0x250 ≤ c.toNat

theorem cleanedOpt_of_high {o : Option Str} (h : optAllHigh o) : cleanedOpt o = none := by
  match o with
  | none => simp [cleanedOpt, cleanText, optOfStr]
  | some s =>
    have : cleanText (some s) = [] := cleanText_of_high (h s rfl)
    simp [cleanedOpt, this, optOfStr]

theorem metaName_of_high {ctx : PageCtx} (h : optAllHigh ctx.metaContent) :
    metaName ctx = none ∨ metaName ctx = some [] := by
  cases hm : ctx.metaContent with
  | none => exact Or.inl (by simp [metaName, hm])
  | some c =>
    by_cases hc : c = []
    · exact Or.inl (by simp [metaName, hm, hc])
    · exact Or.inr (by simp [metaName, hm, hc, cleanTextStr_of_high (h c hm)])

theorem nameFallback_of_high {ctx : PageCtx} (h2 : optAllHigh ctx.pgTitle)
    (h3 : optAllHigh ctx.metaContent) :
    nameFallback ctx = none ∨ nameFallback ctx = some [] := by
  cases ht : ctx.pgTitle with
  | none =>
    rcases metaName_of_high h3 with hm | hm
    · exact Or.inl (by simp [nameFallback, ht, hm])
    · exact Or.inr (by simp [nameFallback, ht, hm])
  | some t =>
    by_cases htr : jsTrim t = []
    · rcases metaName_of_high h3 with hm | hm
      · exact Or.inl (by simp [nameFallback, ht, htr, hm])
      · exact Or.inr (by simp [nameFallback, ht, htr, hm])
    · refine Or.inr ?_
      have hfix : cleanTextStr (t.takeWhile (fun c => c ≠ '-')) = [] :=
        cleanTextStr_of_high
          (fun c hc => h2 t ht c ((List.takeWhile_prefix _).sublist.subset hc))
      simp only [ne_eq, decide_not] at hfix
      simp [nameFallback, ht, htr, hfix]

/-- A rendered page whose name sources consist entirely of
characters outside the kept Latin blocks produces no record. -/
theorem detailHandler_none_of_high (e : ExtractedRaw) (ctx : PageCtx)
    (h1 : optAllHigh e.name) (h2 : optAllHigh ctx.pgTitle)
    (h3 : optAllHigh ctx.metaContent) : detailHandler e ctx = none := by
  have hn : nameResolved e ctx = nameFallback ctx := by
    unfold nameResolved
    rw [cleanedOpt_of_high h1]
  unfold detailHandler
  rw [hn]
  rcases nameFallback_of_high h2 h3 with hf | hf <;> rw [hf]
  rfl

theorem admitLoop_inv :
    ∀ (links seen acc : List Str) (cap : Nat),
      (acc.map canonicalizePlaceUrl).Nodup →
      (∀ a ∈ acc, canonicalizePlaceUrl a ∈ seen) →
      ((admitLoop links seen acc cap).1.map canonicalizePlaceUrl).Nodup ∧
      (∀ a ∈ (admitLoop links seen acc cap).1,
        canonicalizePlaceUrl a ∈ (admitLoop links seen acc cap).2) ∧
      (∀ x ∈ seen, x ∈ (admitLoop links seen acc cap).2) ∧
      (∀ a ∈ (admitLoop links seen acc cap).1,
        a ∉ acc → canonicalizePlaceUrl a ∉ seen) := by
  intro links
  induction links with
  | nil =>
    intro seen acc cap h1 h2
    refine ⟨h1, h2, fun x hx => hx, fun a ha hna => absurd ha hna⟩
  | cons l ls ih =>
    intro seen acc cap h1 h2
    by_cases hmem : canonicalizePlaceUrl l ∈ seen
    · simp only [admitLoop, if_pos hmem]
      exact ih seen acc cap h1 h2
    · have h1' : ((acc ++ [l]).map canonicalizePlaceUrl).Nodup := by
        rw [List.map_append, List.nodup_append]
        refine ⟨h1, List.nodup_singleton _, ?_⟩
        intro x hx hx'
        simp only [List.map_cons, List.map_nil, List.mem_singleton] at hx'
        subst hx'
        obtain ⟨a, ha, hca⟩ := List.mem_map.mp hx
        exact hmem (hca ▸ h2 a ha)
      have h2' : ∀ a ∈ acc ++ [l],
          canonicalizePlaceUrl a ∈ canonicalizePlaceUrl l :: seen := by
        intro a ha
        rcases List.mem_append.mp ha with ha' | ha'
        · exact List.mem_cons_of_mem _ (h2 a ha')
        · simp only [List.mem_singleton] at ha'
          subst ha'
          exact List.mem_cons_self _ _
      by_cases hcap : cap ≤ (acc ++ [l]).length
      · simp only [admitLoop, if_neg hmem, if_pos hcap]
        refine ⟨h1', h2', fun x hx => List.mem_cons_of_mem _ hx, ?_⟩
        intro a ha hna
        rcases List.mem_append.mp ha with ha' | ha'
        · exact absurd ha' hna
        · simp only [List.mem_singleton] at ha'
          subst ha'
          exact hmem
      · simp only [admitLoop, if_neg hmem, if_neg hcap]
        obtain ⟨ih1, ih2, ih3, ih4⟩ :=
          ih (canonicalizePlaceUrl l :: seen) (acc ++ [l]) cap h1' h2'
        refine ⟨ih1, ih2, fun x hx => ih3 x (List.mem_cons_of_mem _ hx), ?_⟩
        intro a ha hna
        by_cases hal : a ∈ acc ++ [l]
        · rcases List.mem_append.mp hal with ha' | ha'
          · exact absurd ha' hna
          · simp only [List.mem_singleton] at ha'
            subst ha'
            exact hmem
        · intro hcon
          exact ih4 a ha hal (List.mem_cons_of_mem _ hcon)

theorem runAdmitAux_nodup :
    ∀ (qs : List (List Str)) (seen admitted : List Str) (cap : Nat),
      (admitted.map canonicalizePlaceUrl).Nodup →
      (∀ a ∈ admitted, canonicalizePlaceUrl a ∈ seen) →
      ((runAdmitAux qs seen admitted cap).map canonicalizePlaceUrl).Nodup := by
  intro qs
  induction qs with
  | nil => intro seen admitted cap h1 _; exact h1
  | cons q qs ih =>
    intro seen admitted cap h1 h2
    obtain ⟨a1, a2, a3, a4⟩ :=
      admitLoop_inv q seen [] cap (by simp) (by simp)
    simp only [runAdmitAux]
    apply ih
    · rw [List.map_append, List.nodup_append]
      refine ⟨h1, a1, ?_⟩
      intro x hx hx'
      obtain ⟨a, ha, hca⟩ := List.mem_map.mp hx
      obtain ⟨b, hb, hcb⟩ := List.mem_map.mp hx'
      have hxin : x ∈ seen := hca ▸ h2 a ha
      exact a4 b hb (List.not_mem_nil b) (hcb ▸ hxin)
    · intro a ha
      rcases List.mem_append.mp ha with ha' | ha'
      · exact a3 _ (h2 a ha')
      · exact a2 a ha'

/-- Canonical forms of the links admitted over a whole run are pairwise
distinct. -/
theorem runAdmit_nodup (qs : List (List Str)) (cap : Nat) :
    ((runAdmit qs cap).map canonicalizePlaceUrl).Nodup :=
  runAdmitAux_nodup qs [] [] cap (by simp) (by simp)

/-- A link whose canonical form is already recorded is skipped by the
admission loop. -/
theorem admitLoop_skips {l : Str} {seen : List Str} (ls acc : List Str) (cap : Nat)
    (h : canonicalizePlaceUrl l ∈ seen) :
    admitLoop (l :: ls) seen acc cap = admitLoop ls seen acc cap := by
  simp only [admitLoop, if_pos h]

theorem schedStep_running_le {N : Nat} {s t : SchedState} (h : SchedStep N s t)
    (hs : s.running.length ≤ N) : t.running.length ≤ N := by
  cases h with
  | start r rest running finished hlt => simpa using hlt
  | finish r queued run₁ run₂ finished =>
    simp only [List.length_append, List.length_cons] at hs ⊢
    omega

theorem schedReach_running_le {N : Nat} {s t : SchedState} (h : SchedReach N s t)
    (hs : s.running.length ≤ N) : t.running.length ≤ N := by
  induction h with
  | refl => exact hs
  | tail hreach hstep ih => exact schedStep_running_le hstep ih

theorem mem_batchesF :
    ∀ (fuel : Nat) (urls : List Str) (c : Nat) (b : List Str),
      b ∈ batchesF fuel urls c → b.length ≤ c := by
  intro fuel
  induction fuel with
  | zero =>
    intro urls c b h
    match urls with
    | [] => exact absurd h (List.not_mem_nil b)
    | u :: us => exact absurd h (List.not_mem_nil b)
  | succ f ih =>
    intro urls c b h
    match urls with
    | [] => exact absurd h (List.not_mem_nil b)
    | u :: us =>
      simp only [batchesF] at h
      rcases List.mem_cons.mp h with rfl | hrec
      · simp only [List.length_take]
        omega
      · exact ih _ c b hrec

/-- The three-character separator of `split(' - ')` in the fast
variant's title fallback. -/
def sepDash : List Char := [' ', '-', ' ']

/-- `text.split(sep)[0]`: the prefix of the string before the first
occurrence of the separator (the whole string when the separator does
not occur; the empty string splits to `[''], [0] = ''`). -/
def splitHead (sep : List Char) : List Char → List Char
  | [] => []
  | c :: cs => if List.isPrefixOf sep (c :: cs) then [] else c :: splitHead sep cs

/-- The values drawn from the last JSON-LD block whose `@type` matched
`LocalBusiness` (src/unnamed/part_001 lines 71-87).  String-valued JSON
fields are `Option Str` (`none` when the path is absent), numeric ones
`Option Rat`: `name` is `json.name`, `streetAddress` is
`json.address?.streetAddress`, `addressString` is `json.address` when
that value is a string, `telephone` is `json.telephone`, `jsonUrl` is
`json.url`, `ratingValue`/`reviewCount` are the `aggregateRating`
fields, `geoLatitude`/`geoLongitude` are the `geo` fields, and
`category` is `Array.isArray(json['@type']) ? json['@type'][0] :
json['@type']`. -/
structure LdBlock where
  name : Option Str
  streetAddress : Option Str
  addressString : Option Str
  telephone : Option Str
  jsonUrl : Option Str
  ratingValue : Option Rat
  reviewCount : Option Rat
  geoLatitude : Option Rat
  geoLongitude : Option Rat
  category : Option Str
  deriving DecidableEq, Repr

/-- The `address` field of the assembled `data` object
(src/unnamed/part_001 line 77):
`json.address?.streetAddress || (typeof json.address === 'string' ?
json.address : null)` — a truthy (non-empty) `streetAddress` wins,
otherwise the string-typed `json.address`. -/
def ldAddress (b : LdBlock) : Option Str :=
  match b.streetAddress with
  | some s => if s = [] then b.addressString else some s
  | none => b.addressString

/-- `json.geo?.latitude || coords.latitude` (src/unnamed/part_001 line
82): a falsy (absent or zero) geo latitude falls back to the URL
coordinates. -/
def ldLat (b : LdBlock) (coords : Coords) : Option Rat :=
  if truthyNum b.geoLatitude then b.geoLatitude else coords.latitude

/-- `json.geo?.longitude || coords.longitude` (src/unnamed/part_001
line 83). -/
def ldLon (b : LdBlock) (coords : Coords) : Option Rat :=
  if truthyNum b.geoLongitude then b.geoLongitude else coords.longitude

/-- The object returned by the fast variant's `extractPlaceHttp`
(src/unnamed/part_001 lines 90-92 and 101-108): the JSON-LD branch
spreads the raw `data` fields, the fallback branch fills only the name
and the URL coordinates (its other optional fields are absent). -/
structure HttpRecord where
  name : Str
  address : Option Str
  phone : Option Str
  website : Option Str
  rating : Option Rat
  reviewsCount : Option Rat
  latitude : Option Rat
  longitude : Option Rat
  category : Option Str
  url : Str
  searchQuery : Str
  scrapedAt : Str
  deriving DecidableEq, Repr

/-- The selected fallback name of `extractPlaceHttp`
(src/unnamed/part_001 lines 95-97): `og:title` content (an absent
attribute gives `undefined`, falsy) split at `' - '`, else the title
text split the same way, else the first `h1` text. -/
def httpFallbackName (ogTitle : Option Str) (titleText h1Text : Str) : Str :=
  let nm1 := match ogTitle with
    | some t => splitHead sepDash t
    | none => []
  if nm1 ≠ [] then nm1
  else if splitHead sepDash titleText ≠ [] then splitHead sepDash titleText
  else h1Text

/-- The fallback branch itself: a blank selected name returns `null`,
otherwise only the cleaned name and the URL coordinates are attached
(`{ name: cleanText(name), latitude, longitude, url, searchQuery,
scrapedAt }` — all other optional fields absent). -/
def httpFallback (coords : Coords) (ogTitle : Option Str) (titleText h1Text : Str)
    (url query scrapedAt : Str) : Option HttpRecord :=
  if jsTrim (httpFallbackName ogTitle titleText h1Text) = [] then none
  else
    some { name := cleanText (some (httpFallbackName ogTitle titleText h1Text))
           address := none
           phone := none
           website := none
           rating := none
           reviewsCount := none
           latitude := coords.latitude
           longitude := coords.longitude
           category := none
           url := url
           searchQuery := query
           scrapedAt := scrapedAt }

/-- The record returned by the JSON-LD branch (src/unnamed/part_001
lines 75-85 and 90-92): `{ ...data, url, searchQuery, scrapedAt }` with
the truthy name `n` — every field is the raw JSON value; no field
passes through `cleanText`. -/
def ldRecord (b : LdBlock) (coords : Coords) (n : Str) (url query scrapedAt : Str) :
    HttpRecord :=
  { name := n
    address := ldAddress b
    phone := b.telephone
    website := b.jsonUrl
    rating := b.ratingValue
    reviewsCount := b.reviewCount
    latitude := ldLat b coords
    longitude := ldLon b coords
    category := b.category
    url := url
    searchQuery := query
    scrapedAt := scrapedAt }

/-- `extractPlaceHttp` (src/unnamed/part_001 lines 50-113) as a
function of the transport outcome and the parsed page content: `ok200`
is `response.statusCode === 200` (`false` also covers a thrown
transport error — both `return null`); `ld` is the last matching
JSON-LD block, if any; `ogTitle`, `titleText` and `h1Text` are the
`og:title` content and the `title`/first-`h1` texts (cheerio `.text()`
yields the empty string for a missing element).  When the JSON-LD
`data` has a truthy name the raw `data` fields are returned unchanged
(`{ ...data, url, searchQuery, scrapedAt }` — no `cleanText` in that
branch); otherwise the title fallback runs. -/
def extractPlaceHttp (ok200 : Bool) (ld : Option LdBlock)
    (ogTitle : Option Str) (titleText h1Text : Str)
    (url query scrapedAt : Str) : Option HttpRecord :=
  if !ok200 then none
  else
    let coords := parseCoordsFromUrl (some url)
    match ld with
    | some b =>
      (match b.name with
       | some n =>
         if n = [] then httpFallback coords ogTitle titleText h1Text url query scrapedAt
         else some (ldRecord b coords n url query scrapedAt)
       | none => httpFallback coords ogTitle titleText h1Text url query scrapedAt)
    | none => httpFallback coords ogTitle titleText h1Text url query scrapedAt

/-- The per-batch success filter of `processDetailsInParallel`
(src/unnamed/part_001 line 127): `batchResults.filter(r => r?.name)` —
only non-null results with a truthy (non-empty) name are pushed to the
collected results (and later to the dataset). -/
def httpResultsKeep (rs : List (Option HttpRecord)) : List HttpRecord :=
  rs.filterMap (fun o =>
    match o with
    | some r => if r.name = [] then none else some r
    | none => none)

/-! Claim theorems. -/

theorem parseRating_some_range {t : Option Str} {v : Rat} (h : parseRating t = some v) :
    0 ≤ v ∧ v ≤ 5 := by
  match t with
  | none => exact absurd h (by simp [parseRating])
  | some s =>
    simp only [parseRating] at h
    by_cases hs : s = []
    · rw [if_pos hs] at h; exact absurd h (by simp)
    · rw [if_neg hs] at h
      cases hm : findRatingNum (removeFirst (Char.ofNat 0x200E) s) with
      | none => rw [hm] at h; exact absurd h (by simp)
      | some w =>
        simp only [hm] at h
        by_cases hw : w < 0 ∨ 5 < w
        · rw [if_pos hw] at h; exact absurd h (by simp)
        · rw [if_neg hw] at h
          push_neg at hw
          have hwv : w = v := (Option.some.injEq _ _).mp h
          subst hwv
          exact hw

theorem parseRatingFast_some_range {t : Option Str} {v : Rat}
    (h : parseRatingFast t = some v) : 0 ≤ v ∧ v ≤ 5 := by
  match t with
  | none => exact absurd h (by simp [parseRatingFast])
  | some s =>
    simp only [parseRatingFast] at h
    by_cases hs : s = []
    · rw [if_pos hs] at h; exact absurd h (by simp)
    · rw [if_neg hs] at h
      cases hm : findRatingNum s with
      | none => rw [hm] at h; exact absurd h (by simp)
      | some w =>
        simp only [hm] at h
        by_cases hw : 0 ≤ w ∧ w ≤ 5
        · rw [if_pos hw] at h
          have hwv : w = v := (Option.some.injEq _ _).mp h
          subst hwv
          exact hw
        · rw [if_neg hw] at h; exact absurd h (by simp)

theorem parseRating_none_of_big {s : Str} {w : Rat}
    (hm : findRatingNum (removeFirst (Char.ofNat 0x200E) s) = some w) (hw : 5 < w) :
    parseRating (some s) = none := by
  by_cases hs : s = []
  · simp [parseRating, hs]
  · simp only [parseRating, if_neg hs, hm]
    rw [if_pos (Or.inr hw)]

/-- C2: for every input text (absent and non-string inputs included),
`parseRating` — in the main variant and in the fast variant — returns
either a numeric value in the closed interval `[0, 5]` or absent, and a
matched number greater than 5 yields absent rather than a clamped
value. -/
theorem c2_parseRating_range (t : Option Str) (v : Rat) :
    (parseRating t = some v → 0 ≤ v ∧ v ≤ 5) ∧
    (parseRatingFast t = some v → 0 ≤ v ∧ v ≤ 5) ∧
    (∀ s w, t = some s → findRatingNum (removeFirst (Char.ofNat 0x200E) s) = some w →
      5 < w → parseRating t = none) := by
  refine ⟨fun h => parseRating_some_range h, fun h => parseRatingFast_some_range h, ?_⟩
  intro s w hts hm hw
  subst hts
  exact parseRating_none_of_big hm hw

/-- C2 witness: "4.5" parses to 9/2, inside the range, in both variants,
and "7" is rejected rather than clamped. -/
theorem c2_parseRating_range_witness :
    ((0 : Rat) ≤ mkRat 9 2 ∧ (mkRat 9 2 : Rat) ≤ 5) ∧
    ((0 : Rat) ≤ mkRat 9 2 ∧ (mkRat 9 2 : Rat) ≤ 5) ∧
    parseRating (some ['7']) = none :=
  ⟨(c2_parseRating_range (some ['4', '.', '5']) (mkRat 9 2)).1 (by decide),
   (c2_parseRating_range (some ['4', '.', '5']) (mkRat 9 2)).2.1 (by decide),
   (c2_parseRating_range (some ['7']) 0).2.2 ['7'] (mkRat 7 1) rfl (by decide) (by decide)⟩

/-- The input `Copy open  hours` (two spaces): the boilerplate regex
does not match it, but whitespace collapsing then creates the phrase,
which a second `cleanText` pass removes. -/
def c3CexInput : Str :=
  ['C', 'o', 'p', 'y', ' ', 'o', 'p', 'e', 'n', ' ', ' ', 'h', 'o', 'u', 'r', 's']

/-- C3 counterexample: `cleanText` of the main variant is not
idempotent — `cleanText("Copy open  hours")` is `"Copy open hours"`,
whose second cleaning is the empty string. -/
theorem c3_idempotent_cex :
    cleanText (some (cleanText (some c3CexInput))) ≠ cleanText (some c3CexInput) := by
  decide

/-- C3 amended: `cleanText` is a total deterministic function with
absent/non-string input mapped to the empty string (both variants); the
fast variant's normalizer is idempotent on every input; the main
variant's normalizer is idempotent on every input on which the
boilerplate-removal pass leaves the cleaned output unchanged (by the
counterexample, whitespace collapsing can assemble a fresh
`Copy open hours` occurrence, so unconditional idempotence fails). -/
theorem c3_cleanText_total_idem :
    cleanText none = [] ∧ cleanTextFast none = [] ∧
    (∀ x, cleanTextFast (some (cleanTextFast (some x))) = cleanTextFast (some x)) ∧
    (∀ x, removeCopy (cleanText (some x)) = cleanText (some x) →
      cleanText (some (cleanText (some x))) = cleanText (some x)) := by
  refine ⟨rfl, rfl, ?_, ?_⟩
  · intro x
    by_cases hx : x = []
    · simp [cleanTextFast, hx]
    · simp only [cleanTextFast, if_neg hx]
      by_cases hy : cleanTextFastStr x = []
      · simp [hy]
      · simp only [if_neg hy]
        exact cleanTextFastStr_idem x
  · intro x h
    by_cases hx : x = []
    · simp [cleanText, hx]
    · simp only [cleanText, if_neg hx] at h ⊢
      by_cases hy : cleanTextStr x = []
      · simp [hy, cleanText]
      · simp only [if_neg hy]
        exact cleanTextStr_idem_of_removeCopy h

/-- C3 witness: idempotence at a concrete boilerplate-free input. -/
theorem c3_cleanText_total_idem_witness :
    cleanText (some (cleanText (some ['h', 'i', ' ', ' ', 'a']))) =
      cleanText (some ['h', 'i', ' ', ' ', 'a']) :=
  c3_cleanText_total_idem.2.2.2 ['h', 'i', ' ', ' ', 'a'] (by decide)

theorem parseCoords_pairing (url : Option Str) :
    (parseCoordsFromUrl url).latitude = none ↔
      (parseCoordsFromUrl url).longitude = none := by
  match url with
  | none => simp [parseCoordsFromUrl]
  | some s =>
    simp only [parseCoordsFromUrl]
    by_cases hs : s = []
    · simp [hs]
    · simp only [if_neg hs]
      cases h1 : findAtMatch s with
      | some p => cases p; simp
      | none =>
        cases h2 : findBangMatch s with
        | some p => cases p; simp
        | none => simp

theorem resolvedCoords_pairing (bu pu : Str) :
    (resolvedCoords bu pu).latitude = none ↔
      (resolvedCoords bu pu).longitude = none := by
  unfold resolvedCoords
  by_cases hc : (truthyNum (parseCoordsFromUrl (some bu)).latitude &&
      truthyNum (parseCoordsFromUrl (some bu)).longitude) = true
  · simp only [hc, if_pos]
    exact parseCoords_pairing _
  · simp only [Bool.not_eq_true] at hc
    simp only [hc, Bool.false_eq_true, if_false]
    exact parseCoords_pairing _

/-- The concrete DETAIL request of the C1 falsification: the enqueued
and resolved URLs both carry the coordinate pair `(0.0, 10.5)`. -/
def c1CexCtx : PageCtx :=
  { businessUrl := ['@', '0', '.', '0', ',', '1', '0', '.', '5']
    pageUrl := ['@', '0', '.', '0', ',', '1', '0', '.', '5']
    query := ['q']
    pgTitle := none
    metaContent := none
    includeImages := false
    includeReviews := false
    reviewSnippets := none
    scrapedAt := ['t'] }

/-- Extracted fields with a valid name and nothing else. -/
def c1CexExt : ExtractedRaw :=
  { name := some ['C', 'a', 'f', 'e']
    category := none
    ratingText := none
    reviewsText := none
    address := none
    phone := none
    website := none
    hours := none
    images := [] }

/-- C1 counterexample: the Geo Decoder returns the full pair
`(0, 21/2)` for the URL `@0.0,10.5`, yet the emitted record carries
`longitude` without `latitude` — the zero coordinate is dropped by the
`coords.latitude || undefined` truthiness check, so the pairing is not
preserved through record assembly for the decodable value zero. -/
theorem c1_zero_coordinate_cex :
    parseCoordsFromUrl (some c1CexCtx.businessUrl) =
      ⟨some (mkRat 0 1), some (mkRat 21 2)⟩ ∧
    (detailHandler c1CexExt c1CexCtx).map (fun r => (r.latitude, r.longitude)) =
      some (none, some (mkRat 21 2)) := by decide

/-- C1 amended: the Geo Decoder itself never returns a partially-filled
pair (both fields present or both absent), the coordinate fallback
resolution preserves this pairing, and record assembly preserves the
pairing for every decoded pair whose components are both nonzero and
for absent pairs; a decoded pair with a zero component is the one case
where assembly drops only the zero side (`|| undefined`). -/
theorem c1_pairing_amended :
    (∀ url, ((parseCoordsFromUrl url).latitude = none ↔
      (parseCoordsFromUrl url).longitude = none)) ∧
    (∀ bu pu, ((resolvedCoords bu pu).latitude = none ↔
      (resolvedCoords bu pu).longitude = none)) ∧
    (∀ e ctx r a b, detailHandler e ctx = some r →
      resolvedCoords ctx.businessUrl ctx.pageUrl = ⟨some a, some b⟩ →
      a ≠ 0 → b ≠ 0 → r.latitude = some a ∧ r.longitude = some b) ∧
    (∀ e ctx r, detailHandler e ctx = some r →
      resolvedCoords ctx.businessUrl ctx.pageUrl = ⟨none, none⟩ →
      r.latitude = none ∧ r.longitude = none) := by
  refine ⟨parseCoords_pairing, resolvedCoords_pairing, ?_, ?_⟩
  · intro e ctx r a b hr hc ha hb
    obtain ⟨nm, _, _, rfl⟩ := detailHandler_some_iff.mp hr
    constructor <;> simp [mkDetailRecord, hc, numOrUndef, ha, hb]
  · intro e ctx r hr hc
    obtain ⟨nm, _, _, rfl⟩ := detailHandler_some_iff.mp hr
    constructor <;> simp [mkDetailRecord, hc, numOrUndef]

/-- The DETAIL request of the C1 witness: both URLs carry the nonzero
pair `(1.5, 2.5)`. -/
def c1WitCtx : PageCtx :=
  { businessUrl := ['@', '1', '.', '5', ',', '2', '.', '5']
    pageUrl := ['@', '1', '.', '5', ',', '2', '.', '5']
    query := ['q']
    pgTitle := none
    metaContent := none
    includeImages := false
    includeReviews := false
    reviewSnippets := none
    scrapedAt := ['t'] }

/-- The record the DETAIL handler emits for the C1 witness request. -/
def c1WitRec : BusinessRecord := mkDetailRecord c1CexExt c1WitCtx ['C', 'a', 'f', 'e']

/-- C1 witness: a record emitted for a nonzero decodable pair carries
both coordinates. -/
theorem c1_pairing_amended_witness :
    ((parseCoordsFromUrl none).latitude = none ↔
      (parseCoordsFromUrl none).longitude = none) ∧
    (c1WitRec.latitude = some (mkRat 3 2) ∧ c1WitRec.longitude = some (mkRat 5 2)) :=
  ⟨c1_pairing_amended.1 none,
   c1_pairing_amended.2.2.1 c1CexExt c1WitCtx c1WitRec (mkRat 3 2) (mkRat 5 2)
     (by decide) (by decide) (by decide) (by decide)⟩

theorem httpFallbackName_blank {ogTitle : Option Str} {titleText h1Text : Str}
    (hog : ∀ t, ogTitle = some t → jsTrim (splitHead sepDash t) = [])
    (hti : jsTrim (splitHead sepDash titleText) = [])
    (hh1 : jsTrim h1Text = []) :
    jsTrim (httpFallbackName ogTitle titleText h1Text) = [] := by
  unfold httpFallbackName
  cases hot : ogTitle with
  | none =>
    by_cases h2 : splitHead sepDash titleText = []
    · simp [h2, hh1]
    · simp [h2, hti]
  | some t =>
    by_cases h1 : splitHead sepDash t = []
    · by_cases h2 : splitHead sepDash titleText = []
      · simp [h1, h2, hh1]
      · simp [h1, h2, hti]
    · simp [h1, hog t hot]

theorem httpFallback_blank {coords : Coords} {ogTitle : Option Str}
    {titleText h1Text url query ts : Str}
    (h : jsTrim (httpFallbackName ogTitle titleText h1Text) = []) :
    httpFallback coords ogTitle titleText h1Text url query ts = none := by
  unfold httpFallback
  rw [if_pos h]

theorem extractPlaceHttp_all_blank {ok200 : Bool} {ld : Option LdBlock}
    {ogTitle : Option Str} {titleText h1Text url query ts : Str}
    (hld : ∀ b, ld = some b → b.name = none ∨ b.name = some [])
    (hog : ∀ t, ogTitle = some t → jsTrim (splitHead sepDash t) = [])
    (hti : jsTrim (splitHead sepDash titleText) = [])
    (hh1 : jsTrim h1Text = []) :
    extractPlaceHttp ok200 ld ogTitle titleText h1Text url query ts = none := by
  have hfb : ∀ coords : Coords,
      httpFallback coords ogTitle titleText h1Text url query ts = none :=
    fun _ => httpFallback_blank (httpFallbackName_blank hog hti hh1)
  cases ok200 with
  | false => rfl
  | true =>
    unfold extractPlaceHttp
    cases hl : ld with
    | none => simp [hfb]
    | some b =>
      rcases hld b hl with hn | hn <;> simp [hn, hfb]

theorem mem_httpResultsKeep {rs : List (Option HttpRecord)} {r : HttpRecord}
    (h : r ∈ httpResultsKeep rs) : r.name ≠ [] := by
  unfold httpResultsKeep at h
  obtain ⟨o, _, ho⟩ := List.mem_filterMap.mp h
  match o with
  | none => exact absurd ho (by simp)
  | some q =>
    simp only at ho
    by_cases hn : q.name = []
    · rw [if_pos hn] at ho
      exact absurd ho (by simp)
    · rw [if_neg hn] at ho
      have : q = r := (Option.some.injEq _ _).mp ho
      subst this
      exact hn

/-- C4: (i) the per-field probe `pickText` yields absent when every
selector's text is absent or blank; (ii) when the primary name probe
yielded nothing and every fallback name source yields a blank or absent
name, the DETAIL handler skips the listing and pushes no record;
(iii) equivalently, every record pushed as a success has a non-empty
(indeed non-blank) name; (iv) likewise on the fast variant's HTTP path,
when the JSON-LD name and every title/meta/h1 source yield a blank or
absent name, `extractPlaceHttp` returns `null` and produces no record;
(v) the batch filter `r?.name` pushes only records with a non-empty
name. -/
theorem c4_no_name_skip :
    (∀ ts : List (Option Str),
      (∀ t ∈ ts, ∀ s, t = some s → jsTrim s = []) → pickText ts = none) ∧
    (∀ e ctx, e.name = none →
      (∀ n, nameFallback ctx = some n → jsTrim n = []) →
      detailHandler e ctx = none) ∧
    (∀ e ctx r, detailHandler e ctx = some r → r.name ≠ [] ∧ jsTrim r.name ≠ []) ∧
    (∀ (ok200 : Bool) (ld : Option LdBlock) (ogTitle : Option Str)
      (titleText h1Text url query ts : Str),
      (∀ b, ld = some b → b.name = none ∨ b.name = some []) →
      (∀ t, ogTitle = some t → jsTrim (splitHead sepDash t) = []) →
      jsTrim (splitHead sepDash titleText) = [] →
      jsTrim h1Text = [] →
      extractPlaceHttp ok200 ld ogTitle titleText h1Text url query ts = none) ∧
    (∀ (rs : List (Option HttpRecord)) (r : HttpRecord),
      r ∈ httpResultsKeep rs → r.name ≠ []) := by
  refine ⟨?_, ?_, ?_, ?_, ?_⟩
  · intro ts
    induction ts with
    | nil => intro _; rfl
    | cons t rest ih =>
      intro h
      match t with
      | none =>
        show pickText rest = none
        exact ih (fun t' ht' => h t' (List.mem_cons_of_mem _ ht'))
      | some s =>
        have hts : jsTrim s = [] := h (some s) (List.mem_cons_self _ _) s rfl
        show (if jsTrim s = [] then pickText rest else some (jsTrim s)) = none
        rw [if_pos hts]
        exact ih (fun t' ht' => h t' (List.mem_cons_of_mem _ ht'))
  · intro e ctx hname hfb
    have hres : nameResolved e ctx = nameFallback ctx := by
      unfold nameResolved
      rw [show cleanedOpt e.name = none from by rw [hname]; rfl]
    unfold detailHandler
    rw [hres]
    cases hf : nameFallback ctx with
    | none => rfl
    | some n =>
      have := hfb n hf
      simp [this]
  · intro e ctx r hr
    obtain ⟨nm, _, hnm, rfl⟩ := detailHandler_some_iff.mp hr
    have hname : (mkDetailRecord e ctx nm).name = nm := by simp [mkDetailRecord]
    rw [hname]
    refine ⟨?_, hnm⟩
    intro hcon
    subst hcon
    exact hnm rfl
  · intro ok200 ld ogTitle titleText h1Text url query ts hld hog hti hh1
    exact extractPlaceHttp_all_blank hld hog hti hh1
  · intro rs r hr
    exact mem_httpResultsKeep hr

/-- A JSON-LD block carrying no name at all. -/
def c4LdNoName : LdBlock :=
  { name := none
    streetAddress := none
    addressString := none
    telephone := none
    jsonUrl := none
    ratingValue := none
    reviewCount := none
    geoLatitude := none
    geoLongitude := none
    category := none }

/-- A fast-path record with a one-letter name, fed to the batch
filter in the C4 witness. -/
def c4HttpRec : HttpRecord :=
  { name := ['A']
    address := none
    phone := none
    website := none
    rating := none
    reviewsCount := none
    latitude := none
    longitude := none
    category := none
    url := ['u']
    searchQuery := ['q']
    scrapedAt := ['t'] }

/-- Extracted fields in which every name probe yielded nothing. -/
def c4NoNameExt : ExtractedRaw :=
  { name := none
    category := none
    ratingText := none
    reviewsText := none
    address := none
    phone := none
    website := none
    hours := none
    images := [] }

/-- C4 witness: blank probes yield no name; a no-name page is skipped;
a concrete success record has a non-blank name; a fast-path page whose
JSON-LD block and title sources carry no name yields `null`; the batch
filter only passes records with a non-empty name. -/
theorem c4_no_name_skip_witness :
    pickText [none, some [' ', ' ']] = none ∧
    detailHandler c4NoNameExt c1CexCtx = none ∧
    ((mkDetailRecord c1CexExt c1CexCtx ['C', 'a', 'f', 'e']).name ≠ [] ∧
      jsTrim (mkDetailRecord c1CexExt c1CexCtx ['C', 'a', 'f', 'e']).name ≠ []) ∧
    extractPlaceHttp true (some c4LdNoName) none [] [] ['u'] ['q'] ['t'] = none ∧
    c4HttpRec.name ≠ [] :=
  ⟨c4_no_name_skip.1 [none, some [' ', ' ']] (by decide),
   c4_no_name_skip.2.1 c4NoNameExt c1CexCtx rfl
     (by intro n hn; simp [nameFallback, metaName, c1CexCtx] at hn),
   c4_no_name_skip.2.2.1 c1CexExt c1CexCtx _ (by decide),
   c4_no_name_skip.2.2.2.1 true (some c4LdNoName) none [] [] ['u'] ['q'] ['t']
     (by intro b hb; injection hb with h; subst h; exact Or.inl rfl)
     (by intro t ht; exact Option.noConfusion ht)
     (by decide) (by decide),
   c4_no_name_skip.2.2.2.2 [some c4HttpRec] c4HttpRec (by decide)⟩

/-- C5: across a whole run — all queries, shared seen-set — the
Deduplication Ledger admits at most one link per canonical form (the
canonical forms of the admitted links are pairwise distinct), and a
link whose canonical form is already recorded is rejected by the
admission loop (the second and later occurrences reaching the ledger
are skipped). -/
theorem c5_dedup_admits_once :
    (∀ qs cap, ((runAdmit qs cap).map canonicalizePlaceUrl).Nodup) ∧
    (∀ (l : Str) (ls seen acc : List Str) (cap : Nat),
      canonicalizePlaceUrl l ∈ seen →
      admitLoop (l :: ls) seen acc cap = admitLoop ls seen acc cap) :=
  ⟨runAdmit_nodup, fun _ ls _ acc cap h => admitLoop_skips ls acc cap h⟩

/-- C5 witness: two URLs differing only in their query strings are
admitted once over a two-query run, and the duplicate is rejected. -/
theorem c5_dedup_admits_once_witness :
    ((runAdmit [[['a', '?', '1']], [['a', '?', '2']]] 5).map canonicalizePlaceUrl).Nodup ∧
    admitLoop [['a', '?', '2']] [['a']] [] 5 = admitLoop [] [['a']] [] 5 :=
  ⟨c5_dedup_admits_once.1 [[['a', '?', '1']], [['a', '?', '2']]] 5,
   c5_dedup_admits_once.2 ['a', '?', '2'] [] [['a']] [] 5 (by decide)⟩

/-- C6 counterexample: a DETAIL request whose every name probe fails is
a terminal outcome (`PartialFailure(no-name)`: the handler returns after
logging, the request is not retried), yet zero dataset entries are
emitted for it — not exactly one, as the claim requires; only failures
that exhaust retries flow through `failedRequestHandler` and get a
dataset entry. -/
theorem c6_no_name_entry_cex :
    detailSinkEntries c4NoNameExt c1CexCtx = [] ∧
    (detailSinkEntries c4NoNameExt c1CexCtx).length ≠ 1 := by decide

/-- C6 amended: every terminal failure that flows through
`failedRequestHandler` is recorded as a dataset entry with the error
marker `error: true` and a non-empty reason string (distinguishing it
from success records); every success pushes exactly one record; but a
no-name skip emits no entry at all (see the counterexample). -/
theorem c6_failure_entries_amended :
    (∀ url query msgs ts, (failedRequestEntry url query msgs ts).error = true ∧
      (failedRequestEntry url query msgs ts).errorMessage ≠ []) ∧
    (∀ e ctx r, detailHandler e ctx = some r →
      detailSinkEntries e ctx = [SinkEntry.success r]) := by
  constructor
  · intro url query msgs ts
    refine ⟨rfl, ?_⟩
    cases msgs with
    | none => exact (by decide : defaultFailMsg ≠ ([] : Str))
    | some ms =>
      show (if joinCommaSp ms = [] then defaultFailMsg else joinCommaSp ms) ≠ []
      by_cases hm : joinCommaSp ms = []
      · rw [if_pos hm]; decide
      · rw [if_neg hm]; exact hm
  · intro e ctx r hr
    unfold detailSinkEntries
    rw [hr]

/-- C6 witness: a concrete retry-exhausted failure entry carries the
marker and a reason, and a concrete success emits exactly one record. -/
theorem c6_failure_entries_amended_witness :
    ((failedRequestEntry ['u'] ['q'] none ['t']).error = true ∧
      (failedRequestEntry ['u'] ['q'] none ['t']).errorMessage ≠ []) ∧
    detailSinkEntries c1CexExt c1CexCtx =
      [SinkEntry.success (mkDetailRecord c1CexExt c1CexCtx ['C', 'a', 'f', 'e'])] :=
  ⟨c6_failure_entries_amended.1 ['u'] ['q'] none ['t'],
   c6_failure_entries_amended.2 c1CexExt c1CexCtx _ (by decide)⟩

theorem cleanHoursOpt_some {t : Option Str} {c : Str} (h : optOfStr (cleanHours t) = some c) :
    ∃ s, c = cleanHoursStr s := by
  match t with
  | none => exact absurd h (by simp [cleanHours, optOfStr])
  | some s =>
    by_cases hs : s = []
    · subst hs
      exact absurd h (by simp [cleanHours, optOfStr])
    · have h' : optOfStr (cleanHoursStr s) = some c := by
        simpa [cleanHours, hs] using h
      exact ⟨s, (optOfStr_some h').1⟩

/-- The website URL with an embedded control character used to falsify
C7: `cleanText` strips U+0001, so this string is not fixed by the
normalizer (hence not in its image). -/
def c7BadWebsite : Str := ['h', 't', 't', 'p', ':', '/', '/', 'a', Char.ofNat 0x1, 'b']

/-- Extracted fields carrying the unnormalized website URL. -/
def c7CexExt : ExtractedRaw :=
  { name := some ['C', 'a', 'f', 'e']
    category := none
    ratingText := none
    reviewsText := none
    address := none
    phone := none
    website := some c7BadWebsite
    hours := none
    images := [] }

/-- C7 counterexample: the emitted record's `website` field is the raw
extracted string (`extracted.website || undefined`) — it differs from
its own normalized form, so it was not passed through the Text
Normalizer before being attached. -/
theorem c7_website_raw_cex :
    (detailHandler c7CexExt c1CexCtx).map (fun r => r.website) = some (some c7BadWebsite) ∧
    cleanTextStr c7BadWebsite ≠ c7BadWebsite := by decide

theorem httpFallback_some {coords : Coords} {ogTitle : Option Str}
    {titleText h1Text url query ts : Str} {r : HttpRecord}
    (h : httpFallback coords ogTitle titleText h1Text url query ts = some r) :
    (∃ s, r.name = cleanTextStr s) ∧ r.category = none ∧ r.address = none ∧
    r.phone = none ∧ r.website = none := by
  unfold httpFallback at h
  by_cases hg : jsTrim (httpFallbackName ogTitle titleText h1Text) = []
  · rw [if_pos hg] at h
    exact absurd h (by simp)
  · rw [if_neg hg] at h
    have hrec := ((Option.some.injEq _ _).mp h).symm
    subst hrec
    have hne : httpFallbackName ogTitle titleText h1Text ≠ [] := by
      intro hc
      rw [hc] at hg
      exact hg rfl
    refine ⟨⟨httpFallbackName ogTitle titleText h1Text, ?_⟩, rfl, rfl, rfl, rfl⟩
    show cleanText (some (httpFallbackName ogTitle titleText h1Text)) = _
    simp [cleanText, hne]

theorem extractPlaceHttp_ld {b : LdBlock} {n : Str} (hn : b.name = some n)
    (hne : n ≠ []) (ogTitle : Option Str) (titleText h1Text url query ts : Str) :
    extractPlaceHttp true (some b) ogTitle titleText h1Text url query ts =
      some (ldRecord b (parseCoordsFromUrl (some url)) n url query ts) := by
  unfold extractPlaceHttp
  simp [hn, hne]

/-- C7 amended: in every record emitted by the main variant the
populated optional fields category, address, phone and the review
snippets are images of the text normalizer `cleanText` and hours is an
image of the hours normalizer `cleanHours`, but the website field
(contrary to the claim's list) is attached raw (see the
counterexample); in the fast variant's JSON-LD branch no field is
normalized at all — name, category, address, phone and website are the
raw JSON values — and in its title-fallback branch the name is
normalized while category, address, phone and website are never
populated. -/
theorem c7_normalized_fields_amended :
    (∀ e ctx r, detailHandler e ctx = some r →
      (∀ c, r.category = some c → ∃ s, c = cleanTextStr s) ∧
      (∀ a, r.address = some a → ∃ s, a = cleanTextStr s) ∧
      (∀ p, r.phone = some p → ∃ s, p = cleanTextStr s) ∧
      (∀ hrs, r.hours = some hrs → ∃ s, hrs = cleanHoursStr s) ∧
      (∀ l, r.reviews = some l → ∀ rv ∈ l, ∃ s, rv = cleanTextStr s)) ∧
    (∀ (b : LdBlock) (ogTitle : Option Str) (titleText h1Text url query ts : Str) r n,
      b.name = some n → n ≠ [] →
      extractPlaceHttp true (some b) ogTitle titleText h1Text url query ts = some r →
      r.name = n ∧ r.category = b.category ∧ r.address = ldAddress b ∧
      r.phone = b.telephone ∧ r.website = b.jsonUrl) ∧
    (∀ (ogTitle : Option Str) (titleText h1Text url query ts : Str) r,
      extractPlaceHttp true none ogTitle titleText h1Text url query ts = some r →
      (∃ s, r.name = cleanTextStr s) ∧ r.category = none ∧ r.address = none ∧
      r.phone = none ∧ r.website = none) := by
  refine ⟨?_, ?_, ?_⟩
  case refine_2 =>
    intro b ogTitle titleText h1Text url query ts r n hn hne hr
    rw [extractPlaceHttp_ld hn hne] at hr
    have hrec := ((Option.some.injEq _ _).mp hr).symm
    subst hrec
    exact ⟨rfl, rfl, rfl, rfl, rfl⟩
  case refine_3 =>
    intro ogTitle titleText h1Text url query ts r hr
    have hfb : httpFallback (parseCoordsFromUrl (some url)) ogTitle titleText h1Text
        url query ts = some r := by
      rw [← hr]
      rfl
    exact httpFallback_some hfb
  intro e ctx r hr
  obtain ⟨nm, _, _, rfl⟩ := detailHandler_some_iff.mp hr
  refine ⟨?_, ?_, ?_, ?_, ?_⟩
  · intro c hc
    exact cleanedOpt_some (by simpa [mkDetailRecord] using hc)
  · intro a ha
    exact cleanedOpt_some (by simpa [mkDetailRecord] using ha)
  · intro p hp
    exact cleanedOpt_some (by simpa [mkDetailRecord] using hp)
  · intro hrs hh
    exact cleanHoursOpt_some (by simpa [mkDetailRecord] using hh)
  · intro l hl rv hrv
    have hl' : (if (ctx.includeReviews && (match parseReviewsCount e.reviewsText with
        | some n => decide (0 < n)
        | none => false)) = true then
          (match ctx.reviewSnippets with
           | some snips => some ((snips.map cleanTextStr).filter (fun r => r ≠ []))
           | none => none)
        else none) = some l := by simpa [mkDetailRecord] using hl
    split at hl'
    · cases hsn : ctx.reviewSnippets with
      | none => rw [hsn] at hl'; exact absurd hl' (by simp)
      | some snips =>
        rw [hsn] at hl'
        have hleq : (snips.map cleanTextStr).filter (fun r => r ≠ []) = l :=
          (Option.some.injEq _ _).mp hl'
        rw [← hleq] at hrv
        have hmem : rv ∈ snips.map cleanTextStr := (List.mem_filter.mp hrv).1
        obtain ⟨s, _, hsr⟩ := List.mem_map.mp hmem
        exact ⟨s, hsr.symm⟩
    · exact absurd hl' (by simp)

/-- Extracted fields with a populated category, used in the C7
witness. -/
def c7WitExt : ExtractedRaw :=
  { name := some ['C', 'a', 'f', 'e']
    category := some ['C', 'a', 't']
    ratingText := none
    reviewsText := none
    address := none
    phone := none
    website := none
    hours := none
    images := [] }

/-- A JSON-LD block whose telephone carries a control character,
showing the fast variant attaches it raw. -/
def c7LdBlock : LdBlock :=
  { name := some ['N']
    streetAddress := some ['A', Char.ofNat 0x1]
    addressString := none
    telephone := some ['P', Char.ofNat 0x1]
    jsonUrl := some ['W']
    ratingValue := none
    reviewCount := none
    geoLatitude := none
    geoLongitude := none
    category := some ['C']
    }

/-- The record the fast variant's JSON-LD branch returns for
`c7LdBlock`. -/
def c7LdRec : HttpRecord := ldRecord c7LdBlock ⟨none, none⟩ ['N'] ['u'] ['q'] ['t']

/-- C7 witness: the populated category of a concrete main-variant
record is an image of the normalizer, and a concrete fast-variant
JSON-LD record carries the raw phone and address values. -/
theorem c7_normalized_fields_amended_witness :
    (∃ s, (['C', 'a', 't'] : Str) = cleanTextStr s) ∧
    (c7LdRec.name = ['N'] ∧ c7LdRec.category = c7LdBlock.category ∧
      c7LdRec.address = ldAddress c7LdBlock ∧ c7LdRec.phone = c7LdBlock.telephone ∧
      c7LdRec.website = c7LdBlock.jsonUrl) :=
  ⟨(c7_normalized_fields_amended.1 c7WitExt c1CexCtx
      (mkDetailRecord c7WitExt c1CexCtx ['C', 'a', 'f', 'e']) (by decide)).1
      ['C', 'a', 't'] (by decide),
   c7_normalized_fields_amended.2.1 c7LdBlock none [] [] ['u'] ['q'] ['t'] c7LdRec ['N']
     rfl (by decide) (by decide)⟩

/-- C8 counterexample: the fast variant validates only the query set —
with a valid query and `maxResults = 501` (outside `[1, 500]`) its
validation succeeds and the run proceeds to extraction instead of
aborting with a configuration failure. -/
theorem c8_fast_limit_unchecked_cex :
    validateInputFast { searchQueries := some [['a']], maxResults := 501 } = Except.ok () ∧
    (500 : Int) < 501 :=
  ⟨rfl, by decide⟩

/-- C8 amended: the main variant aborts before any extraction for every
input with an empty or all-blank query set or an out-of-range result
limit; the fast variant aborts for every empty or all-blank query set,
but performs no `maxResults` range check at all (see the
counterexample). -/
theorem c8_config_validation_amended :
    ∀ inp : RunInput,
      ((inp.searchQueries = none ∨
        (∃ qs, inp.searchQueries = some qs ∧ (qs = [] ∨ qs.filter isValidQuery = [])) ∨
        inp.maxResults < 1 ∨ 500 < inp.maxResults) →
        ∃ m, validateInput inp = Except.error m) ∧
      ((inp.searchQueries = none ∨
        (∃ qs, inp.searchQueries = some qs ∧ (qs = [] ∨ qs.filter isValidQuery = []))) →
        ∃ m, validateInputFast inp = Except.error m) := by
  intro inp
  constructor
  · intro h
    cases hq : inp.searchQueries with
    | none => exact ⟨msgNeedQuery, by simp [validateInput, hq]⟩
    | some qs =>
      by_cases h1 : qs.isEmpty
      · exact ⟨msgNeedQuery, by simp [validateInput, hq, h1]⟩
      · by_cases h2 : (inp.maxResults < 1 || 500 < inp.maxResults) = true
        · exact ⟨msgMaxResults, by simp [validateInput, hq, h1, h2]⟩
        · by_cases h3 : (qs.filter isValidQuery).isEmpty
          · exact ⟨msgAllEmpty, by simp [validateInput, hq, h1, h2, h3]⟩
          · exfalso
            simp only [Bool.or_eq_true, decide_eq_true_eq, not_or] at h2
            rcases h with hn | ⟨qs', hqs', hbad⟩ | hlo | hhi
            · rw [hq] at hn; exact Option.noConfusion hn
            · rw [hq] at hqs'
              have : qs = qs' := (Option.some.injEq _ _).mp hqs'
              subst this
              rcases hbad with hbad | hbad
              · rw [List.isEmpty_iff] at h1; exact h1 hbad
              · rw [List.isEmpty_iff] at h3; exact h3 hbad
            · exact h2.1 hlo
            · exact h2.2 hhi
  · intro h
    cases hq : inp.searchQueries with
    | none => exact ⟨msgNeedQueryFast, by simp [validateInputFast, hq]⟩
    | some qs =>
      by_cases h1 : qs.isEmpty
      · exact ⟨msgNeedQueryFast, by simp [validateInputFast, hq, h1]⟩
      · by_cases h3 : (qs.filter isValidQuery).isEmpty
        · exact ⟨msgAllEmptyFast, by simp [validateInputFast, hq, h1, h3]⟩
        · exfalso
          rcases h with hn | ⟨qs', hqs', hbad⟩
          · rw [hq] at hn; exact Option.noConfusion hn
          · rw [hq] at hqs'
            have : qs = qs' := (Option.some.injEq _ _).mp hqs'
            subst this
            rcases hbad with hbad | hbad
            · rw [List.isEmpty_iff] at h1; exact h1 hbad
            · rw [List.isEmpty_iff] at h3; exact h3 hbad

/-- C8 witness: a non-array query set aborts both variants before any
extraction. -/
theorem c8_config_validation_amended_witness :
    (∃ m, validateInput { searchQueries := none, maxResults := 5 } = Except.error m) ∧
    (∃ m, validateInputFast { searchQueries := none, maxResults := 5 } = Except.error m) :=
  ⟨(c8_config_validation_amended { searchQueries := none, maxResults := 5 }).1 (Or.inl rfl),
   (c8_config_validation_amended { searchQueries := none, maxResults := 5 }).2 (Or.inl rfl)⟩

/-- C9: under the spec-modelled crawlee scheduler with ceiling `N`,
every state reachable from an initial state with no request in flight
keeps at most `N` requests simultaneously running (queued requests wait
for a free slot); and every simultaneous HTTP-extraction wave of the
fast variant's `processDetailsInParallel` batch loop has at most
`concurrency` requests. -/
theorem c9_concurrency_ceiling :
    (∀ (N : Nat) (ids : List Nat) (s : SchedState),
      SchedReach N ⟨ids, [], []⟩ s → s.running.length ≤ N) ∧
    (∀ (urls : List Str) (c : Nat) (b : List Str), b ∈ batches urls c → b.length ≤ c) := by
  constructor
  · intro N ids s h
    exact schedReach_running_le h (by simp)
  · intro urls c b h
    exact mem_batchesF urls.length urls c b h

/-- C9 witness: the initial state with 500 queued identifiers and
ceiling 5 has at most 5 running, and a concrete batch respects the
cap 10. -/
theorem c9_concurrency_ceiling_witness :
    (SchedState.running ⟨List.range 500, [], []⟩).length ≤ 5 ∧
    ([['a'], ['b']] : List Str).length ≤ 10 :=
  ⟨c9_concurrency_ceiling.1 5 (List.range 500) ⟨List.range 500, [], []⟩
     (SchedReach.refl _),
   c9_concurrency_ceiling.2 [['a'], ['b']] 10 [['a'], ['b']] (by decide)⟩

/-- The all-Cyrillic business name of the C10 witness. -/
def c10CyrName : Str := ['К', 'а', 'ф', 'е']

/-- Extracted fields whose name is entirely Cyrillic. -/
def c10CyrExt : ExtractedRaw :=
  { name := some c10CyrName
    category := none
    ratingText := none
    reviewsText := none
    address := none
    phone := none
    website := none
    hours := none
    images := [] }

/-- C10: the main variant's normalizer maps every character outside
Basic Latin, Latin-1 Supplement and Latin Extended-A/B (scalar value at
least `0x250`) to nothing — every output character is below `0x250` —
a string consisting entirely of such characters normalizes to the empty
string, and a listing whose every name source consists of such
characters is dropped as having no name: no record is emitted. -/
theorem c10_nonlatin_name_dropped :
    (∀ s c, c ∈ cleanTextStr s → c.toNat ≤ 0x24F) ∧
    (∀ s : Str, (∀ c ∈ s, 0x250 ≤ c.toNat) → cleanTextStr s = []) ∧
    (∀ e ctx, optAllHigh e.name → optAllHigh ctx.pgTitle → optAllHigh ctx.metaContent →
      detailHandler e ctx = none) :=
  ⟨fun _ _ h => mem_cleanTextStr_le h, fun _ h => cleanTextStr_of_high h,
   fun e ctx h1 h2 h3 => detailHandler_none_of_high e ctx h1 h2 h3⟩

/-- C10 witness: a fully Cyrillic name cleans to the empty string and
the listing is dropped. -/
theorem c10_nonlatin_name_dropped_witness :
    cleanTextStr c10CyrName = [] ∧ detailHandler c10CyrExt c1CexCtx = none :=
  ⟨c10_nonlatin_name_dropped.2.1 c10CyrName (by decide),
   c10_nonlatin_name_dropped.2.2 c10CyrExt c1CexCtx
     (by intro s hs c hc; injection hs with h; subst h; revert c hc; decide)
     (by intro s hs; simp [c1CexCtx] at hs)
     (by intro s hs; simp [c1CexCtx] at hs)⟩
